import Mathlib

/-!
Shallow embedding of the KindleLogprocessor core (src/calculator.py and
src/event_parser.py).  Lines of log text are modelled as `List Char`; the
regular-expression searches of the Python source are modelled by explicit
left-to-right (or, for greedy dot-star tails, right-to-left) scans over the
suffixes of a line, matching the concrete patterns appearing in the source.
Python dictionaries are modelled as insertion-ordered association lists,
and Python truthiness of the relevant values (`None` and `0` are falsy,
a nonempty dict or string is truthy) is modelled explicitly where the
source relies on it.
-/

/-- Python `str.strip` whitespace set (space, tab, newline, CR, VT, FF). -/
def isPySpace (c : Char) : Bool :=
  c = ' ' || c = '\t' || c = '\n' || c = '\r' || c = '\x0b' || c = '\x0c'

/-- Python `str.strip()`: drop whitespace from both ends. -/
def pyStrip (l : List Char) : List Char :=
  ((l.dropWhile isPySpace).reverse.dropWhile isPySpace).reverse

/-- Python `int(...)` applied to a (possibly zero-padded) string of decimal digits. -/
def digitsToNat (l : List Char) : Nat :=
  l.foldl (fun a c => a * 10 + (c.toNat - 48)) 0

/-- Python slice `s[-k:]` (the last `k` characters, or all of them when shorter). -/
def takeLast (k : Nat) (l : List Char) : List Char := l.drop (l.length - k)

/-- Lower-casing used for `re.IGNORECASE` and `str.lower()`. -/
def lcase (l : List Char) : List Char := l.map Char.toLower

/-- Match a literal at the head of the input, returning the remainder. -/
def matchLit : List Char → List Char → Option (List Char)
  | [], s => some s
  | _ :: _, [] => none
  | a :: ps, c :: cs => if a = c then matchLit ps cs else none

/-- A pattern that starts with a literal and continues with `k` on the remainder. -/
def litThen (lit : List Char) (k : List Char → Option α) (s : List Char) : Option α :=
  match matchLit lit s with
  | some r => k r
  | none => none

/-- `re.search` semantics: try the pattern at each start position, leftmost first. -/
def scanSuffixes (tryAt : List Char → Option α) : List Char → Option α
  | [] => none
  | c :: rest =>
    match tryAt (c :: rest) with
    | some r => some r
    | none => scanSuffixes tryAt rest

/-- Backtracking of a greedy `.*` before a subpattern: try start positions
rightmost first, but never move past a newline (`.` does not match newline). -/
def scanLastNoNl (k : List Char → Option α) : List Char → Option α
  | [] => k []
  | c :: rest =>
    if c = '\n' then k (c :: rest)
    else
      match scanLastNoNl k rest with
      | some r => some r
      | none => k (c :: rest)

/-- Python `pat in line` substring containment: does `s` start with `pat`? -/
def startsWith : List Char → List Char → Bool
  | [], _ => true
  | _ :: _, [] => false
  | p :: ps, c :: cs => p = c && startsWith ps cs

/-- Python `pat in line` substring containment. -/
def isSubstrOf (pat : List Char) : List Char → Bool
  | [] => pat.isEmpty
  | c :: rest => startsWith pat (c :: rest) || isSubstrOf pat rest

/-- Greedy capture of a nonempty run of decimal digits (`(\d+)`) at this position. -/
def digitsCapAt (r : List Char) : Option (List Char) :=
  let ds := r.takeWhile Char.isDigit
  if ds.isEmpty then none else some ds

/-- Tail of the two button patterns: a fractional timestamp `(\d+\.\d+)` at this
position, returned as the pair of dot-separated digit groups of the capture
(the capture contains exactly one dot, so Python's split-and-length-2 check
on it always passes). -/
def fracCaptureAt (s : List Char) : Option (List Char × List Char) :=
  let d1 := s.takeWhile Char.isDigit
  if d1.isEmpty then none
  else
    match s.drop d1.length with
    | '.' :: rest2 =>
      let d2 := rest2.takeWhile Char.isDigit
      if d2.isEmpty then none else some (d1, d2)
    | _ => none

/-- `int(parts[0][-3:] + parts[1][:3])` of event_parser.py. -/
def threePlusThree (d1 d2 : List Char) : Nat :=
  digitsToNat (takeLast 3 d1 ++ d2.take 3)

/-- `DefaultEventParser.extract_start_timestamp`: search `button 1 up (\d+\.\d+)`. -/
def extract_start_default (line : List Char) : Option Nat :=
  (scanSuffixes (litThen ("button 1 up ".data) fracCaptureAt) line).map
    (fun p => threePlusThree p.1 p.2)

/-- `SwipeEventParser.extract_start_timestamp`: search `Sending button 1 down (\d+\.\d+)`. -/
def extract_start_swipe (line : List Char) : Option Nat :=
  (scanSuffixes (litThen ("Sending button 1 down ".data) fracCaptureAt) line).map
    (fun p => threePlusThree p.1 p.2)

/-- Tail `time[=:](\d+)` at this position. -/
def timeCapAt (s : List Char) : Option (List Char) :=
  match matchLit ("time".data) s with
  | some r =>
    match r with
    | c :: rest =>
      if c = '=' || c = ':' then digitsCapAt rest else none
    | [] => none
  | none => none

/-- Tail `(\d{6,})` at this position: at least six digits, captured greedily. -/
def sixPlusDigitsAt (s : List Char) : Option (List Char) :=
  let ds := s.takeWhile Char.isDigit
  if ds.length ≥ 6 then some ds else none

/-- Suspend pattern `def:pbpress:time=(\d+):Power button pressed` (on the
lower-cased line, per `re.IGNORECASE`). -/
def suspendP1 : List Char → Option (List Char) :=
  litThen ("def:pbpress:time=".data) (fun r =>
    let ds := r.takeWhile Char.isDigit
    if ds.isEmpty then none
    else
      match matchLit (":power button pressed".data) (r.drop ds.length) with
      | some _ => some ds
      | none => none)

/-- Suspend pattern `Power button pressed.*time[=:](\d+)`. -/
def suspendP2 : List Char → Option (List Char) :=
  litThen ("power button pressed".data) (scanLastNoNl timeCapAt)

/-- Suspend pattern `pbpress.*time[=:](\d+)`. -/
def suspendP3 : List Char → Option (List Char) :=
  litThen ("pbpress".data) (scanLastNoNl timeCapAt)

/-- Suspend pattern `button.*power.*time[=:](\d+)`. -/
def suspendP4 : List Char → Option (List Char) :=
  litThen ("button".data)
    (scanLastNoNl (litThen ("power".data) (scanLastNoNl timeCapAt)))

/-- Suspend pattern `Power.*button.*time[=:](\d+)`. -/
def suspendP5 : List Char → Option (List Char) :=
  litThen ("power".data)
    (scanLastNoNl (litThen ("button".data) (scanLastNoNl timeCapAt)))

/-- Suspend pattern `Power.*pressed.*time[=:](\d+)`. -/
def suspendP6 : List Char → Option (List Char) :=
  litThen ("power".data)
    (scanLastNoNl (litThen ("pressed".data) (scanLastNoNl timeCapAt)))

/-- Suspend pattern `(?:power|pb).*(\d{6,})` (alternation tried in order). -/
def suspendP7 (s : List Char) : Option (List Char) :=
  match litThen ("power".data) (scanLastNoNl sixPlusDigitsAt) s with
  | some r => some r
  | none => litThen ("pb".data) (scanLastNoNl sixPlusDigitsAt) s

/-- The length-dependent 6-digit normalisation of `SuspendEventParser`
(`int(ts[-6:])` when longer than six digits, `int(ts)` when exactly six,
`int(ts.zfill(6))` when shorter — the zero padding does not change the
integer value). -/
def fit6 (ds : List Char) : Nat :=
  if ds.length > 6 then digitsToNat (takeLast 6 ds)
  else if ds.length = 6 then digitsToNat ds
  else digitsToNat ds

/-- `SuspendEventParser.extract_start_timestamp`: the seven patterns are tried
in order, each with `re.search` over the whole line, case-insensitively. -/
def extract_start_suspend (line : List Char) : Option Nat :=
  let l := lcase line
  let cap :=
    match scanSuffixes suspendP1 l with
    | some d => some d
    | none =>
      match scanSuffixes suspendP2 l with
      | some d => some d
      | none =>
        match scanSuffixes suspendP3 l with
        | some d => some d
        | none =>
          match scanSuffixes suspendP4 l with
          | some d => some d
          | none =>
            match scanSuffixes suspendP5 l with
            | some d => some d
            | none =>
              match scanSuffixes suspendP6 l with
              | some d => some d
              | none => scanSuffixes suspendP7 l
  cap.map fit6

/-- The calculation mode selecting the parser (`get_parser` of event_parser.py). -/
inductive Mode where
  | default
  | swipe
  | suspend
deriving DecidableEq, Repr

/-- Mode dispatch of `extract_start_timestamp` through `get_parser`. -/
def extract_start_timestamp : Mode → List Char → Option Nat
  | Mode.default, l => extract_start_default l
  | Mode.swipe, l => extract_start_swipe l
  | Mode.suspend, l => extract_start_suspend l

/-- First marker pattern `EPDC\]\[(\d+)\]` at this position. -/
def markerCapAt1 : List Char → Option (List Char) :=
  litThen ("EPDC][".data) (fun r =>
    let ds := r.takeWhile Char.isDigit
    if ds.isEmpty then none
    else
      match r.drop ds.length with
      | ']' :: _ => some ds
      | _ => none)

/-- Second marker pattern `mxc_epdc_fb: \[(\d+)\]` at this position. -/
def markerCapAt2 : List Char → Option (List Char) :=
  litThen ("mxc_epdc_fb: [".data) (fun r =>
    let ds := r.takeWhile Char.isDigit
    if ds.isEmpty then none
    else
      match r.drop ds.length with
      | ']' :: _ => some ds
      | _ => none)

/-- `BaseEventParser.extract_marker`: first pattern searched first. -/
def extract_marker (line : List Char) : Option (List Char) :=
  match scanSuffixes markerCapAt1 line with
  | some m => some m
  | none => scanSuffixes markerCapAt2 line

/-- Character class `[\da-f]` of the waveform patterns (lowercase hex). -/
def isHexLower (c : Char) : Bool := c.isDigit || ('a' ≤ c && c ≤ 'f')

/-- Character class `[\w_() ]` of the waveform capture. -/
def isWordChar (c : Char) : Bool :=
  c.isAlpha || c.isDigit || c = '_' || c = '(' || c = ')' || c = ' '

/-- Everything before the last `)` of the list, or `none` when it has no `)`.
This realises the backtracking of the greedy capture `([\w_() ]+)` against the
closing `\)`: the regex engine keeps the run up to the last `)` of the
maximal class run. -/
def cutAtLastRParen : List Char → Option (List Char)
  | [] => none
  | c :: rest =>
    match cutAtLastRParen rest with
    | some cut => some (c :: cut)
    | none => if c = ')' then some [] else none

/-- Tail `[\da-f]+ \(([\w_() ]+)\)` at this position. -/
def hexSpParenCap (s : List Char) : Option (List Char) :=
  let hx := s.takeWhile isHexLower
  if hx.isEmpty then none
  else
    match s.drop hx.length with
    | ' ' :: '(' :: rest =>
      let run := rest.takeWhile isWordChar
      match cutAtLastRParen run with
      | some cap => if cap.isEmpty then none else some cap
      | none => none
    | _ => none

/-- Tail `(?:0x)?[\da-f]+ \(([\w_() ]+)\)` at this position: the optional
`0x` is consumed first; on failure the engine retries without it. -/
def wfTailAt (s : List Char) : Option (List Char) :=
  match s with
  | '0' :: 'x' :: rest =>
    match hexSpParenCap rest with
    | some cap => some cap
    | none => hexSpParenCap s
  | _ => hexSpParenCap s

/-- The four waveform patterns of `extract_height_and_waveform`, tried in
order, each with `re.search`; the capture is stripped afterwards. -/
def waveformSearch (line : List Char) : Option (List Char) :=
  match scanSuffixes (litThen ("new waveform = ".data) wfTailAt) line with
  | some w => some w
  | none =>
    match scanSuffixes (litThen ("waveform:".data) wfTailAt) line with
    | some w => some w
    | none =>
      match scanSuffixes (litThen ("waveform=".data) wfTailAt) line with
      | some w => some w
      | none => scanSuffixes (litThen ("Sending update. waveform:".data) wfTailAt) line

/-- Search `height=(\d+)`. -/
def searchHeight (line : List Char) : Option Nat :=
  (scanSuffixes (litThen ("height=".data) digitsCapAt) line).map digitsToNat

/-- Fallback pattern `width=\d+, height=(\d+)` (it can only match when the
primary `height=(\d+)` search already matched, so it is never used, but it is
modelled as in the source). -/
def widthHeightAt : List Char → Option (List Char) :=
  litThen ("width=".data) (fun r =>
    let ds := r.takeWhile Char.isDigit
    if ds.isEmpty then none
    else litThen (", height=".data) digitsCapAt (r.drop ds.length))

/-- Search of the fallback height pattern. -/
def searchWidthHeight (line : List Char) : Option Nat :=
  (scanSuffixes widthHeightAt line).map digitsToNat

/-- Result of `extract_height_and_waveform`. -/
structure HW where
  height : Nat
  waveform : List Char
deriving DecidableEq, Repr

/-- `BaseEventParser.extract_height_and_waveform`: height is required
(otherwise `None`); a missing or empty waveform capture becomes the
sentinel `"unknown"`. -/
def extract_height_and_waveform (line : List Char) : Option HW :=
  let h1 := searchHeight line
  let h2 :=
    match h1 with
    | some h => some h
    | none => searchWidthHeight line
  let wname := (waveformSearch line).map pyStrip
  match h2 with
  | some h =>
    some { height := h,
           waveform :=
             match wname with
             | some w => if w.isEmpty then "unknown".data else w
             | none => "unknown".data }
  | none => none

/-- `BaseEventParser.extract_end_timestamp`: search `end time=(\d+)` and keep
`int(ts[-6:])` — the last six digits, no padding. -/
def extract_end_timestamp (line : List Char) : Option Nat :=
  (scanSuffixes (litThen ("end time=".data) digitsCapAt) line).map
    (fun ds => digitsToNat (takeLast 6 ds))

/-- Search `update end marker=(\d+)` (calculator.py line 65), capture kept as a string. -/
def searchEndMarkerNum (line : List Char) : Option (List Char) :=
  scanSuffixes (litThen ("update end marker=".data) digitsCapAt) line

/-- Value stored in `heights_by_marker` (calculator.py lines 58-62). -/
structure HeightInfo where
  height : Nat
  waveform : List Char
  line : List Char
deriving DecidableEq, Repr

/-- Value stored in `end_times_by_marker` (calculator.py lines 70-73). -/
structure EndInfo where
  time : Nat
  line : List Char
deriving DecidableEq, Repr

/-- Python `dict[k] = v` on an insertion-ordered dictionary: replace in place
when the key exists, append otherwise. -/
def dictInsert (k : List Char) (v : α) : List (List Char × α) → List (List Char × α)
  | [] => [(k, v)]
  | (k0, v0) :: rest => if k0 = k then (k, v) :: rest else (k0, v0) :: dictInsert k v rest

/-- Python `d[k]` / `k in d` lookup. -/
def lookupDict (k : List Char) : List (List Char × α) → Option α
  | [] => none
  | (k0, v0) :: rest => if k0 = k then some v0 else lookupDict k rest

/-- The per-iteration scan state of `process_iteration` (calculator.py lines 33-36). -/
structure ScanState where
  start_time : Option Nat
  end_times_by_marker : List (List Char × EndInfo)
  heights_by_marker : List (List Char × HeightInfo)
  current_marker : Option (List Char)
deriving DecidableEq, Repr

/-- Python truthiness of the optional integer `start_time` (`None` and `0` are falsy). -/
def pyTruthy : Option Nat → Bool
  | none => false
  | some n => n != 0

/-- Calculator.py lines 43-46: `if not start_time: ... if possible_start:
start_time = possible_start` (a falsy extraction, `None` or `0`, is not assigned). -/
def stepStart (mode : Mode) (st : ScanState) (line : List Char) : ScanState :=
  if pyTruthy st.start_time then st
  else
    match extract_start_timestamp mode line with
    | some v => if v != 0 then { st with start_time := some v } else st
    | none => st

/-- Calculator.py lines 48-50: `marker = parser.extract_marker(line); if marker:
current_marker = marker` (an empty capture would be falsy; captures are nonempty). -/
def stepMarker (st : ScanState) (line : List Char) : ScanState :=
  match extract_marker line with
  | some m => if m.isEmpty then st else { st with current_marker := some m }
  | none => st

/-- Calculator.py lines 52-62: on a `Sending update` line with a current marker,
store height and the normalised waveform (`waveform if waveform and
waveform != "auto" else "unknown"`), overwriting the marker's entry. -/
def stepHeight (st : ScanState) (line : List Char) : ScanState :=
  if isSubstrOf ("Sending update".data) line then
    match st.current_marker with
    | some cm =>
      if cm.isEmpty then st
      else
        match extract_height_and_waveform line with
        | some hw =>
          let wf := if hw.waveform.isEmpty || hw.waveform = "auto".data
                    then "unknown".data else hw.waveform
          let info : HeightInfo := { height := hw.height, waveform := wf, line := pyStrip line }
          { st with heights_by_marker := dictInsert cm info st.heights_by_marker }
        | none => st
    | none => st
  else st

/-- Calculator.py lines 64-73: on a line containing both `update end marker=`
and `end time=`, store the extracted end time for the matched marker id;
`if end_time:` makes a zero extraction falsy, so it is not stored. -/
def stepEnd (st : ScanState) (line : List Char) : ScanState :=
  if isSubstrOf ("update end marker=".data) line && isSubstrOf ("end time=".data) line then
    match searchEndMarkerNum line with
    | some em =>
      match extract_end_timestamp line with
      | some t =>
        if t != 0 then
          let info : EndInfo := { time := t, line := pyStrip line }
          { st with end_times_by_marker := dictInsert em info st.end_times_by_marker }
        else st
      | none => st
    | none => st
  else st

/-- One pass of the scan loop body of `process_iteration` (lines 38-73);
a line that strips to empty is skipped entirely (`continue`). -/
def scanLine (mode : Mode) (st : ScanState) (line : List Char) : ScanState :=
  if (pyStrip line).isEmpty then st
  else stepEnd (stepHeight (stepMarker (stepStart mode st line) line) line) line

/-- Initial scan state (calculator.py lines 33-36). -/
def initState : ScanState :=
  { start_time := none, end_times_by_marker := [], heights_by_marker := [],
    current_marker := none }

/-- The whole scan loop of `process_iteration`. -/
def scanLines (mode : Mode) (lines : List (List Char)) : ScanState :=
  lines.foldl (scanLine mode) initState

/-- Stable insertion of `x` into a list already sorted by `key`: `x` goes
after strictly smaller keys and before equal ones (elements already in the
list with an equal key stem from later positions of the original list). -/
def insertByKey (key : List Char → Nat) (x : List Char) : List (List Char) → List (List Char)
  | [] => [x]
  | y :: ys => if key y < key x then y :: insertByKey key x ys else x :: y :: ys

/-- Stable ascending sort by `key`, modelling Python `list.sort(key=...)`. -/
def sortByKey (key : List Char → Nat) : List (List Char) → List (List Char)
  | [] => []
  | x :: xs => insertByKey key x (sortByKey key xs)

/-- The tie-break sort key of calculator.py line 93:
`int(m) if m.isdigit() else 0`. -/
def pyIntKey (m : List Char) : Nat :=
  if !m.isEmpty && m.all Char.isDigit then digitsToNat m else 0

/-- Calculator.py lines 79-82: the subset of the height map whose waveform is
not `unknown`, compared case-insensitively. -/
def nonUnknown (hs : List (List Char × HeightInfo)) : List (List Char × HeightInfo) :=
  hs.filter (fun p => lcase p.2.waveform ≠ "unknown".data)

/-- Calculator.py lines 79-86: keep markers whose waveform is not `unknown`
(case-insensitively); fall back to the full map when none remain. -/
def validHeightsOf (hs : List (List Char × HeightInfo)) : List (List Char × HeightInfo) :=
  if (nonUnknown hs).isEmpty then hs else nonUnknown hs

/-- Calculator.py line 89: `max(info['height'] for info in valid_heights.values())`
(the source only evaluates this on a nonempty map; the `0` seed is then
equal to Python's `max`). -/
def maxHeightOf (hs : List (List Char × HeightInfo)) : Nat :=
  (hs.map (fun p => p.2.height)).foldl Nat.max 0

/-- Calculator.py lines 90-91: the markers attaining the maximum height,
in dictionary (insertion) order. -/
def tieMarkers (hs : List (List Char × HeightInfo)) : List (List Char) :=
  (hs.filter (fun p => p.2.height = maxHeightOf hs)).map Prod.fst

/-- Calculator.py lines 93-94: sort the tie set by `pyIntKey` and take the last
element; the dead fallback `list(valid_heights.keys())[0]` is kept as in the
source (it is unreachable once the map is nonempty). -/
def chosenOf (valid : List (List Char × HeightInfo)) : Option (List Char) :=
  match (sortByKey pyIntKey (tieMarkers valid)).getLast? with
  | some m => some m
  | none => (valid.map Prod.fst).head?

/-- Calculator.py line 104: `max(end_times_by_marker.values(), key=...)` —
Python's `max` keeps the first element attaining the maximal key. -/
def maxByTime (l : List (List Char × EndInfo)) : Option (List Char × EndInfo) :=
  match l with
  | [] => none
  | x :: xs => some (xs.foldl (fun acc y => if y.2.time > acc.2.time then y else acc) x)

/-- The maximum stored end-time value. -/
def maxTimeVal (l : List (List Char × EndInfo)) : Nat :=
  (l.map (fun p => p.2.time)).foldl Nat.max 0

/-- Calculator.py lines 99-106: the chosen marker's end time when present,
otherwise the maximum end time over the whole map. -/
def stopOf (chosen : List Char) (ends : List (List Char × EndInfo)) : Option Nat :=
  match lookupDict chosen ends with
  | some e => some e.time
  | none => (maxByTime ends).map (fun p => p.2.time)

/-- Calculator.py lines 109-111: `duration = stop - start; if duration < 0:
duration = abs(duration)`. -/
def durOf (stop s0 : Nat) : Int :=
  let d0 : Int := (stop : Int) - (s0 : Int)
  if d0 < 0 then -d0 else d0

/-- The result dictionary of `process_iteration` (calculator.py lines 113-124). -/
structure AnalysisResult where
  iteration : List Char
  start : Nat
  stop : Nat
  marker : List Char
  duration : Int
  max_height : Nat
  max_height_waveform : List Char
  all_heights : List (List Char × Nat × List Char)
  mode : Mode
deriving DecidableEq, Repr

/-- The selection phase of `process_iteration` (calculator.py lines 75-124),
applied to the state left by the scan.  The `none` branches after the
guard model Python operations that cannot fail there (proved below). -/
def selectResult (mode : Mode) (iteration_num : List Char) (st : ScanState) :
    Option AnalysisResult :=
  match st.start_time with
  | none => none
  | some s0 =>
    if s0 = 0 then none
    else if st.heights_by_marker.isEmpty then none
    else if st.end_times_by_marker.isEmpty then none
    else
      match chosenOf (validHeightsOf st.heights_by_marker) with
      | none => none
      | some chosen =>
        match lookupDict chosen (validHeightsOf st.heights_by_marker) with
        | none => none
        | some info =>
          match stopOf chosen st.end_times_by_marker with
          | none => none
          | some stop =>
            some { iteration := iteration_num
                   start := s0
                   stop := stop
                   marker := chosen
                   duration := durOf stop s0
                   max_height := info.height
                   max_height_waveform := info.waveform
                   all_heights :=
                     st.heights_by_marker.map (fun p => (p.1, p.2.height, p.2.waveform))
                   mode := mode }

/-- `process_iteration` of calculator.py. -/
def process_iteration (lines : List (List Char)) (iteration_num : List Char)
    (mode : Mode) : Option AnalysisResult :=
  selectResult mode iteration_num (scanLines mode lines)

/-- Leftmost occurrence of `ITERATION_(\d+)`: returns the text before the
match, the greedy digit capture, and the text after the match. -/
def findIter : List Char → Option (List Char × List Char × List Char)
  | [] => none
  | c :: rest =>
    match matchLit ("ITERATION_".data) (c :: rest) with
    | some r1 =>
      let ds := r1.takeWhile Char.isDigit
      if ds.isEmpty then
        match findIter rest with
        | some (p, cap, r) => some (c :: p, cap, r)
        | none => none
      else some ([], ds, r1.drop ds.length)
    | none =>
      match findIter rest with
      | some (p, cap, r) => some (c :: p, cap, r)
      | none => none

/-- Fuel-driven worker for `re.split(r'ITERATION_(\d+)', s)`: pieces and
captures alternate.  The fuel only serves structural recursion; every match
consumes at least one character, so `s.length + 1` is always enough. -/
def splitLoop : Nat → List Char → List (List Char)
  | 0, s => [s]
  | fuel + 1, s =>
    match findIter s with
    | none => [s]
    | some (p, cap, r) => p :: cap :: splitLoop fuel r

/-- `re.split(r'ITERATION_(\d+)', log_content)` of calculator.py line 140. -/
def splitIterations (s : List Char) : List (List Char) :=
  splitLoop (s.length + 1) s

/-- Calculator.py lines 146-151: pair up iteration numbers with contents. -/
def pairUp : List (List Char) → List (List Char × List Char)
  | a :: b :: rest => (a, b) :: pairUp rest
  | _ => []

/-- Python `content.split('\n')`. -/
def splitNl : List Char → List (List Char)
  | [] => [[]]
  | c :: rest =>
    match splitNl rest with
    | [] => [[]]
    | l :: ls => if c = '\n' then [] :: l :: ls else (c :: l) :: ls

/-- Calculator.py lines 140-151: the labelled segments of the input, with the
whole input as single segment `"01"` when the split finds no marker token. -/
def segmentsOf (s : List Char) : List (List Char × List Char) :=
  let its := (splitIterations s).drop 1
  let its2 := if its.isEmpty then ["01".data, s] else its
  pairUp its2

/-- `process_log_content` of calculator.py: analyze every segment and keep the
truthy (non-`None`) results in order. -/
def process_log_content (s : List Char) (mode : Mode) : List AnalysisResult :=
  (segmentsOf s).filterMap (fun p => process_iteration (splitNl p.2) p.1 mode)

/-- Stated from the spec's words for claim C3: the first non-`None` result of
the timestamp extractor over the lines in order. -/
def firstExtractorResult (mode : Mode) : List (List Char) → Option Nat
  | [] => none
  | l :: ls =>
    match extract_start_timestamp mode l with
    | some v => some v
    | none => firstExtractorResult mode ls

/-- The first nonzero (Python-truthy) result of the timestamp extractor over
the lines in order — what the scan actually keeps. -/
def firstNonzeroResult (mode : Mode) : List (List Char) → Option Nat
  | [] => none
  | l :: ls =>
    match extract_start_timestamp mode l with
    | some v => if v ≠ 0 then some v else firstNonzeroResult mode ls
    | none => firstNonzeroResult mode ls

/-- Keys of the association lists are pairwise distinct. -/
def keysNodup (l : List (List Char × α)) : Prop := (l.map Prod.fst).Nodup

/-- Invariant maintained by the scan: height-map keys are distinct, and every
marker id (keys and the current marker) is a nonempty digit string. -/
def goodState (st : ScanState) : Prop :=
  keysNodup st.heights_by_marker ∧
  (∀ p ∈ st.heights_by_marker, p.1 ≠ [] ∧ p.1.all Char.isDigit = true) ∧
  (∀ m, st.current_marker = some m → m ≠ [] ∧ m.all Char.isDigit = true)

/-! ### Concrete inputs used by the claims -/

/-- The end-to-end scenario input of claim C1. -/
def c1text : List Char :=
  ("ITERATION_01\n[x] button 1 up 123456.789\n[x] EPDC][5] ...\n[x] Sending update. height=800 waveform:0x1 (REAGL)\n[x] update end marker=5 end time=111222").data

/-- The single result the analyzer actually produces for `c1text`. -/
def c1res : AnalysisResult :=
  { iteration := "01".data, start := 456789, stop := 111222, marker := "5".data,
    duration := 345567, max_height := 800, max_height_waveform := "REAGL".data,
    all_heights := [("5".data, 800, "REAGL".data)], mode := Mode.default }

/-- A segment whose only start event yields the (falsy) timestamp 0. -/
def zeroStartLines : List (List Char) :=
  ["button 1 up 0.0".data, "[x] EPDC][5] a".data,
   "Sending update. height=800 waveform:0x1 (REAGL)".data,
   "update end marker=5 end time=111222".data]

/-- A complete segment with a nonzero start event. -/
def goodSegLines : List (List Char) :=
  ["button 1 up 123456.789".data, "[x] EPDC][5] a".data,
   "Sending update. height=800 waveform:0x1 (REAGL)".data,
   "update end marker=5 end time=111222".data]

/-- A segment whose first extractor result is 0 and whose second is 456789. -/
def zeroFirstLines : List (List Char) :=
  ["button 1 up 0.0".data, "button 1 up 123456.789".data]

/-- A segment where an unknown-waveform marker has the strictly greater height. -/
def c4lines : List (List Char) :=
  ["button 1 up 123456.789".data, "EPDC][3] a".data,
   "Sending update. height=900".data,
   "EPDC][5] b".data,
   "Sending update. height=800 waveform:0x1 (REAGL)".data,
   "update end marker=5 end time=111".data]

/-- The result for `c4lines`. -/
def c4res : AnalysisResult :=
  { iteration := "01".data, start := 456789, stop := 111, marker := "5".data,
    duration := 456678, max_height := 800, max_height_waveform := "REAGL".data,
    all_heights := [("3".data, 900, "unknown".data), ("5".data, 800, "REAGL".data)],
    mode := Mode.default }

/-- A segment whose chosen marker has no end-time entry of its own. -/
def c5lines : List (List Char) :=
  ["button 1 up 123456.789".data, "EPDC][5] a".data,
   "Sending update. height=800 waveform:0x1 (REAGL)".data,
   "update end marker=7 end time=999".data,
   "update end marker=8 end time=111".data]

/-- A segment with markers 3 and 12 tied at the maximum height. -/
def c6lines : List (List Char) :=
  ["button 1 up 123456.789".data, "EPDC][3] a".data,
   "Sending update. height=800 waveform:0x1 (REAGL)".data,
   "EPDC][12] b".data,
   "Sending update. height=800 waveform:0x2 (GC16)".data,
   "update end marker=12 end time=999".data]

/-- The result for `c6lines`. -/
def c6res : AnalysisResult :=
  { iteration := "01".data, start := 456789, stop := 999, marker := "12".data,
    duration := 455790, max_height := 800, max_height_waveform := "GC16".data,
    all_heights := [("3".data, 800, "REAGL".data), ("12".data, 800, "GC16".data)],
    mode := Mode.default }

/-- An end-marker line whose end time is nonzero. -/
def c7line : List Char := "update end marker=5 end time=111222".data

/-- Two end-marker lines for the same marker; the second one's last-6-digit
value is 0. -/
def c7pair : List (List Char) :=
  ["update end marker=5 end time=111".data, "update end marker=5 end time=1000000".data]

/-- The second line of `c7pair`. -/
def c7zeroLine : List Char := "update end marker=5 end time=1000000".data

/-- A segment whose stop time (456) is smaller than its start time (789). -/
def c8lines : List (List Char) :=
  ["button 1 up 123000.789".data, "EPDC][5] a".data,
   "Sending update. height=800 waveform:0x1 (REAGL)".data,
   "update end marker=5 end time=456".data]

/-- The result for `c8lines`. -/
def c8res : AnalysisResult :=
  { iteration := "01".data, start := 789, stop := 456, marker := "5".data,
    duration := 333, max_height := 800, max_height_waveform := "REAGL".data,
    all_heights := [("5".data, 800, "REAGL".data)], mode := Mode.default }

/-- A text containing no iteration token. -/
def c9text : List Char := "no marker token in this text".data

/-- A text with leading content before its first iteration token. -/
def c10textA : List Char := "junk ITERATION_7\nbody".data

/-- The same text without the leading content. -/
def c10textB : List Char := "ITERATION_7\nbody".data

/-! ### Dictionary lemmas -/

theorem keys_dictInsert_sub {l : List (List Char × α)} {k k0 : List Char} {v : α}
    (h : k0 ∈ (dictInsert k v l).map Prod.fst) : k0 = k ∨ k0 ∈ l.map Prod.fst := by
  induction l with
  | nil =>
    rw [dictInsert, List.map_cons] at h
    rcases List.mem_cons.mp h with h1 | h1
    · exact Or.inl h1
    · simp at h1
  | cons p rest ih =>
    rw [dictInsert] at h
    by_cases he : p.1 = k
    · rw [if_pos he, List.map_cons] at h
      rcases List.mem_cons.mp h with h1 | h1
      · exact Or.inl h1
      · exact Or.inr (by rw [List.map_cons]; exact List.mem_cons_of_mem _ h1)
    · rw [if_neg he, List.map_cons] at h
      rcases List.mem_cons.mp h with h1 | h1
      · refine Or.inr ?_
        rw [List.map_cons, h1]
        exact List.mem_cons_self _ _
      · rcases ih h1 with h2 | h2
        · exact Or.inl h2
        · exact Or.inr (by rw [List.map_cons]; exact List.mem_cons_of_mem _ h2)

theorem keysNodup_dictInsert {l : List (List Char × α)} {k : List Char} {v : α}
    (h : keysNodup l) : keysNodup (dictInsert k v l) := by
  induction l with
  | nil =>
    unfold keysNodup
    rw [dictInsert, List.map_cons]
    exact List.nodup_cons.mpr ⟨by simp, List.nodup_nil⟩
  | cons p rest ih =>
    have h2 : p.1 ∉ rest.map Prod.fst ∧ (rest.map Prod.fst).Nodup := by
      unfold keysNodup at h
      rw [List.map_cons] at h
      exact List.nodup_cons.mp h
    rcases h2 with ⟨hp, hrest⟩
    unfold keysNodup
    rw [dictInsert]
    by_cases he : p.1 = k
    · rw [if_pos he, List.map_cons]
      exact List.nodup_cons.mpr ⟨he ▸ hp, hrest⟩
    · rw [if_neg he, List.map_cons]
      refine List.nodup_cons.mpr ⟨?_, ih hrest⟩
      intro hmem
      rcases keys_dictInsert_sub hmem with h1 | h1
      · exact he h1
      · exact hp h1

theorem lookupDict_mem {l : List (List Char × α)} {k : List Char} {v : α}
    (h : lookupDict k l = some v) : (k, v) ∈ l := by
  induction l with
  | nil => simp [lookupDict] at h
  | cons p rest ih =>
    rw [lookupDict] at h
    by_cases he : p.1 = k
    · rw [if_pos he] at h
      injection h with h2
      have hp : (k, v) = p := by
        rw [← he, ← h2]
      rw [hp]
      exact List.mem_cons_self _ _
    · rw [if_neg he] at h
      exact List.mem_cons_of_mem _ (ih h)

theorem lookupDict_isSome_of_mem {l : List (List Char × α)} {k : List Char} {v : α}
    (h : (k, v) ∈ l) : ∃ w, lookupDict k l = some w := by
  induction l with
  | nil => simp at h
  | cons p rest ih =>
    rw [lookupDict]
    by_cases he : p.1 = k
    · exact ⟨p.2, by rw [if_pos he]⟩
    · rcases List.mem_cons.mp h with h1 | h1
      · exact absurd (congrArg Prod.fst h1.symm) he
      · rw [if_neg he]
        exact ih h1

theorem lookupDict_eq_of_mem_nodup {l : List (List Char × α)} {k : List Char} {v : α}
    (hn : keysNodup l) (h : (k, v) ∈ l) : lookupDict k l = some v := by
  induction l with
  | nil => simp at h
  | cons p rest ih =>
    have h2 : p.1 ∉ rest.map Prod.fst ∧ (rest.map Prod.fst).Nodup := by
      unfold keysNodup at hn
      rw [List.map_cons] at hn
      exact List.nodup_cons.mp hn
    rcases h2 with ⟨hp, hrest⟩
    rw [lookupDict]
    rcases List.mem_cons.mp h with h1 | h1
    · rw [← h1]
      simp
    · have he : p.1 ≠ k := by
        intro he
        exact hp (he ▸ (List.mem_map.mpr ⟨(k, v), h1, rfl⟩))
      rw [if_neg he]
      exact ih hrest h1

/-! ### Fold-max lemmas -/

theorem foldl_max_eq_or_mem (l : List Nat) : ∀ a : Nat,
    l.foldl Nat.max a = a ∨ l.foldl Nat.max a ∈ l := by
  induction l with
  | nil => intro a; simp
  | cons x xs ih =>
    intro a
    rw [List.foldl_cons]
    rcases ih (Nat.max a x) with h | h
    · rw [h]
      rcases Nat.le_total a x with h1 | h1
      · have h2 : Nat.max a x = x := Nat.max_eq_right h1
        rw [h2]
        exact Or.inr (by simp)
      · have h2 : Nat.max a x = a := Nat.max_eq_left h1
        rw [h2]
        exact Or.inl rfl
    · exact Or.inr (List.mem_cons_of_mem _ h)

theorem le_foldl_max_init (l : List Nat) : ∀ a : Nat, a ≤ l.foldl Nat.max a := by
  induction l with
  | nil => intro a; simp
  | cons x xs ih =>
    intro a
    rw [List.foldl_cons]
    exact le_trans (Nat.le_max_left a x) (ih (Nat.max a x))

theorem le_foldl_max (l : List Nat) : ∀ a : Nat, ∀ x ∈ l, x ≤ l.foldl Nat.max a := by
  induction l with
  | nil => intro a x hx; simp at hx
  | cons y ys ih =>
    intro a x hx
    rw [List.foldl_cons]
    rcases List.mem_cons.mp hx with h | h
    · rw [h]
      exact le_trans (Nat.le_max_right a y) (le_foldl_max_init ys (Nat.max a y))
    · exact ih (Nat.max a y) x h

theorem maxHeightOf_attained {hs : List (List Char × HeightInfo)} (h : hs ≠ []) :
    ∃ p ∈ hs, p.2.height = maxHeightOf hs := by
  unfold maxHeightOf
  rcases foldl_max_eq_or_mem (hs.map (fun p => p.2.height)) 0 with h1 | h1
  · cases hs with
    | nil => exact absurd rfl h
    | cons q qs =>
      refine ⟨q, List.mem_cons_self q qs, ?_⟩
      have h2 : q.2.height ≤ (List.map (fun p => p.2.height) (q :: qs)).foldl Nat.max 0 :=
        le_foldl_max _ 0 _ (List.mem_map.mpr ⟨q, List.mem_cons_self q qs, rfl⟩)
      rw [h1] at h2 ⊢
      exact Nat.le_antisymm h2 (Nat.zero_le _)
  · rcases List.mem_map.mp h1 with ⟨p, hp, he⟩
    exact ⟨p, hp, he⟩

theorem maxByTime_fold_spec (xs : List (List Char × EndInfo)) :
    ∀ acc : List Char × EndInfo,
      ((xs.foldl (fun acc y => if y.2.time > acc.2.time then y else acc) acc = acc ∨
        xs.foldl (fun acc y => if y.2.time > acc.2.time then y else acc) acc ∈ xs) ∧
       acc.2.time ≤ (xs.foldl (fun acc y => if y.2.time > acc.2.time then y else acc) acc).2.time ∧
       ∀ q ∈ xs, q.2.time ≤ (xs.foldl (fun acc y => if y.2.time > acc.2.time then y else acc) acc).2.time) := by
  induction xs with
  | nil => intro acc; exact ⟨Or.inl rfl, le_refl _, by simp⟩
  | cons y ys ih =>
    intro acc
    rw [List.foldl_cons]
    rcases ih (if y.2.time > acc.2.time then y else acc) with ⟨hmem, hle, hall⟩
    refine ⟨?_, ?_, ?_⟩
    · rcases hmem with h | h
      · rw [h]
        by_cases hy : y.2.time > acc.2.time
        · rw [if_pos hy]
          exact Or.inr (by simp)
        · rw [if_neg hy]
          exact Or.inl rfl
      · exact Or.inr (List.mem_cons_of_mem _ h)
    · refine le_trans ?_ hle
      by_cases hy : y.2.time > acc.2.time
      · rw [if_pos hy]
        exact Nat.le_of_lt hy
      · rw [if_neg hy]
    · intro q hq
      rcases List.mem_cons.mp hq with h | h
      · refine le_trans ?_ hle
        rw [h]
        by_cases hy : y.2.time > acc.2.time
        · rw [if_pos hy]
        · rw [if_neg hy]
          exact Nat.le_of_not_lt hy
      · exact hall q h

theorem maxByTime_some {l : List (List Char × EndInfo)} (h : l ≠ []) :
    ∃ p, maxByTime l = some p ∧ p ∈ l ∧ ∀ q ∈ l, q.2.time ≤ p.2.time := by
  cases l with
  | nil => exact absurd rfl h
  | cons x xs =>
    rcases maxByTime_fold_spec xs x with ⟨hmem, hle, hall⟩
    refine ⟨_, rfl, ?_, ?_⟩
    · rcases hmem with h1 | h1
      · rw [h1]
        exact List.mem_cons_self _ _
      · exact List.mem_cons_of_mem _ h1
    · intro q hq
      rcases List.mem_cons.mp hq with h1 | h1
      · rw [h1]
        exact hle
      · exact hall q h1

/-! ### Sort and selection lemmas -/

theorem insertByKey_ne_nil (key : List Char → Nat) (x : List Char) (l : List (List Char)) :
    insertByKey key x l ≠ [] := by
  cases l with
  | nil => simp [insertByKey]
  | cons y ys =>
    rw [insertByKey]
    by_cases h : key y < key x
    · rw [if_pos h]
      simp
    · rw [if_neg h]
      simp

theorem sortByKey_ne_nil {key : List Char → Nat} {l : List (List Char)} (h : l ≠ []) :
    sortByKey key l ≠ [] := by
  cases l with
  | nil => exact absurd rfl h
  | cons x xs =>
    rw [sortByKey]
    exact insertByKey_ne_nil key x (sortByKey key xs)

theorem mem_insertByKey {key : List Char → Nat} {x a : List Char} {l : List (List Char)}
    (h : a ∈ insertByKey key x l) : a = x ∨ a ∈ l := by
  induction l with
  | nil =>
    rw [insertByKey] at h
    rcases List.mem_cons.mp h with h1 | h1
    · exact Or.inl h1
    · simp at h1
  | cons y ys ih =>
    rw [insertByKey] at h
    by_cases hk : key y < key x
    · rw [if_pos hk] at h
      rcases List.mem_cons.mp h with h1 | h1
      · exact Or.inr (by rw [h1]; exact List.mem_cons_self _ _)
      · rcases ih h1 with h2 | h2
        · exact Or.inl h2
        · exact Or.inr (List.mem_cons_of_mem _ h2)
    · rw [if_neg hk] at h
      rcases List.mem_cons.mp h with h1 | h1
      · exact Or.inl h1
      · exact Or.inr h1

theorem mem_sortByKey {key : List Char → Nat} {a : List Char} {l : List (List Char)}
    (h : a ∈ sortByKey key l) : a ∈ l := by
  induction l with
  | nil => simp [sortByKey] at h
  | cons x xs ih =>
    rw [sortByKey] at h
    rcases mem_insertByKey h with h1 | h1
    · rw [h1]
      exact List.mem_cons_self _ _
    · exact List.mem_cons_of_mem _ (ih h1)

theorem getLast?_some_of_ne_nil : ∀ (l : List (List Char)), l ≠ [] → ∃ a, l.getLast? = some a := by
  intro l
  induction l with
  | nil => intro h; exact absurd rfl h
  | cons x xs ih =>
    intro _
    cases xs with
    | nil => exact ⟨x, rfl⟩
    | cons y ys =>
      rcases ih (by simp) with ⟨a, ha⟩
      exact ⟨a, by rw [List.getLast?_cons_cons]; exact ha⟩

theorem mem_of_getLast? : ∀ {l : List (List Char)} {a : List Char},
    l.getLast? = some a → a ∈ l := by
  intro l
  induction l with
  | nil => intro a h; simp at h
  | cons x xs ih =>
    intro a h
    cases xs with
    | nil =>
      have h2 : x = a := by
        have h3 : ([x] : List (List Char)).getLast? = some x := rfl
        rw [h3] at h
        injection h
      rw [← h2]
      exact List.mem_cons_self _ _
    | cons y ys =>
      rw [List.getLast?_cons_cons] at h
      exact List.mem_cons_of_mem _ (ih h)

theorem isEmpty_false_of_ne_nil {l : List α} (h : l ≠ []) : l.isEmpty = false := by
  cases l with
  | nil => exact absurd rfl h
  | cons a as => rfl

theorem validHeightsOf_ne_nil {hs : List (List Char × HeightInfo)} (h : hs ≠ []) :
    validHeightsOf hs ≠ [] := by
  unfold validHeightsOf
  by_cases hv : (nonUnknown hs).isEmpty
  · rw [if_pos hv]
    exact h
  · rw [if_neg hv]
    intro he
    rw [he] at hv
    exact hv rfl

theorem tieMarkers_ne_nil {hs : List (List Char × HeightInfo)} (h : hs ≠ []) :
    tieMarkers hs ≠ [] := by
  rcases maxHeightOf_attained h with ⟨p, hp, hh⟩
  unfold tieMarkers
  intro he
  have hmem : p ∈ hs.filter (fun p => p.2.height = maxHeightOf hs) :=
    List.mem_filter.mpr ⟨hp, decide_eq_true hh⟩
  rw [List.map_eq_nil_iff] at he
  rw [he] at hmem
  simp at hmem

theorem mem_tieMarkers {hs : List (List Char × HeightInfo)} {m : List Char}
    (h : m ∈ tieMarkers hs) : ∃ info, (m, info) ∈ hs ∧ info.height = maxHeightOf hs := by
  unfold tieMarkers at h
  rcases List.mem_map.mp h with ⟨p, hp, he⟩
  rcases List.mem_filter.mp hp with ⟨hmem, hpred⟩
  refine ⟨p.2, ?_, of_decide_eq_true hpred⟩
  have hp2 : (m, p.2) = p := by
    rw [← he]
  rw [hp2]
  exact hmem

theorem chosenOf_spec {hs : List (List Char × HeightInfo)} (h : hs ≠ []) :
    ∃ m, chosenOf hs = some m ∧
      (sortByKey pyIntKey (tieMarkers hs)).getLast? = some m ∧ m ∈ tieMarkers hs := by
  have ht := tieMarkers_ne_nil h
  have hs2 : sortByKey pyIntKey (tieMarkers hs) ≠ [] := sortByKey_ne_nil ht
  rcases getLast?_some_of_ne_nil _ hs2 with ⟨m, hm⟩
  refine ⟨m, ?_, hm, mem_sortByKey (mem_of_getLast? hm)⟩
  unfold chosenOf
  rw [hm]

theorem stopOf_some {c : List Char} {ends : List (List Char × EndInfo)} (h : ends ≠ []) :
    ∃ t, stopOf c ends = some t := by
  unfold stopOf
  cases h1 : lookupDict c ends with
  | some e => exact ⟨e.time, rfl⟩
  | none =>
    rcases maxByTime_some h with ⟨p, hp, _, _⟩
    exact ⟨p.2.time, by rw [hp]; rfl⟩

theorem selectResult_some_intro (mode : Mode) (n : List Char) (st : ScanState)
    (s0 : Nat) (chosen : List Char) (info : HeightInfo) (stop : Nat)
    (h1 : st.start_time = some s0) (h2 : s0 ≠ 0)
    (h3 : st.heights_by_marker ≠ []) (h4 : st.end_times_by_marker ≠ [])
    (h5 : chosenOf (validHeightsOf st.heights_by_marker) = some chosen)
    (h6 : lookupDict chosen (validHeightsOf st.heights_by_marker) = some info)
    (h7 : stopOf chosen st.end_times_by_marker = some stop) :
    selectResult mode n st = some
      { iteration := n, start := s0, stop := stop, marker := chosen,
        duration := durOf stop s0, max_height := info.height,
        max_height_waveform := info.waveform,
        all_heights := st.heights_by_marker.map (fun p => (p.1, p.2.height, p.2.waveform)),
        mode := mode } := by
  unfold selectResult
  rw [h1]
  dsimp only
  rw [if_neg h2]
  rw [if_neg (by simp [isEmpty_false_of_ne_nil h3])]
  rw [if_neg (by simp [isEmpty_false_of_ne_nil h4])]
  rw [h5]
  dsimp only
  rw [h6]
  dsimp only
  rw [h7]

theorem selectResult_some_inv (mode : Mode) (n : List Char) (st : ScanState)
    (r : AnalysisResult) (h : selectResult mode n st = some r) :
    ∃ s0 chosen info stop,
      st.start_time = some s0 ∧ s0 ≠ 0 ∧
      st.heights_by_marker ≠ [] ∧ st.end_times_by_marker ≠ [] ∧
      chosenOf (validHeightsOf st.heights_by_marker) = some chosen ∧
      lookupDict chosen (validHeightsOf st.heights_by_marker) = some info ∧
      stopOf chosen st.end_times_by_marker = some stop ∧
      r = { iteration := n, start := s0, stop := stop, marker := chosen,
            duration := durOf stop s0, max_height := info.height,
            max_height_waveform := info.waveform,
            all_heights := st.heights_by_marker.map (fun p => (p.1, p.2.height, p.2.waveform)),
            mode := mode } := by
  unfold selectResult at h
  cases h1 : st.start_time with
  | none =>
    rw [h1] at h
    dsimp only at h
    exact absurd h (by simp)
  | some s0 =>
    rw [h1] at h
    dsimp only at h
    by_cases h2 : s0 = 0
    · rw [if_pos h2] at h
      exact absurd h (by simp)
    · rw [if_neg h2] at h
      by_cases h3 : st.heights_by_marker.isEmpty = true
      · rw [if_pos h3] at h
        exact absurd h (by simp)
      · rw [if_neg h3] at h
        by_cases h4 : st.end_times_by_marker.isEmpty = true
        · rw [if_pos h4] at h
          exact absurd h (by simp)
        · rw [if_neg h4] at h
          have h3n : st.heights_by_marker ≠ [] := by
            intro he
            exact h3 (by rw [he]; rfl)
          have h4n : st.end_times_by_marker ≠ [] := by
            intro he
            exact h4 (by rw [he]; rfl)
          cases h5 : chosenOf (validHeightsOf st.heights_by_marker) with
          | none =>
            rw [h5] at h
            dsimp only at h
            exact absurd h (by simp)
          | some chosen =>
            rw [h5] at h
            dsimp only at h
            cases h6 : lookupDict chosen (validHeightsOf st.heights_by_marker) with
            | none =>
              rw [h6] at h
              dsimp only at h
              exact absurd h (by simp)
            | some info =>
              rw [h6] at h
              dsimp only at h
              cases h7 : stopOf chosen st.end_times_by_marker with
              | none =>
                rw [h7] at h
                dsimp only at h
                exact absurd h (by simp)
              | some stop =>
                rw [h7] at h
                dsimp only at h
                injection h with h8
                exact ⟨s0, chosen, info, stop, rfl, h2, h3n, h4n, rfl, h6, h7, h8.symm⟩

theorem selectResult_none_of (mode : Mode) (n : List Char) (st : ScanState)
    (h : st.start_time = none ∨ st.heights_by_marker = [] ∨ st.end_times_by_marker = []) :
    selectResult mode n st = none := by
  unfold selectResult
  rcases h with h | h | h
  · rw [h]
  · cases h1 : st.start_time with
    | none => rfl
    | some s0 =>
      dsimp only
      by_cases h2 : s0 = 0
      · rw [if_pos h2]
      · rw [if_neg h2, h]
        rfl
  · cases h1 : st.start_time with
    | none => rfl
    | some s0 =>
      dsimp only
      by_cases h2 : s0 = 0
      · rw [if_pos h2]
      · rw [if_neg h2, h]
        by_cases h3 : st.heights_by_marker.isEmpty = true
        · rw [if_pos h3]
        · rw [if_neg h3]
          rfl

theorem selectResult_isSome (mode : Mode) (n : List Char) (st : ScanState) (s0 : Nat)
    (h1 : st.start_time = some s0) (h2 : s0 ≠ 0)
    (h3 : st.heights_by_marker ≠ []) (h4 : st.end_times_by_marker ≠ []) :
    ∃ r, selectResult mode n st = some r := by
  rcases chosenOf_spec (validHeightsOf_ne_nil h3) with ⟨chosen, h5, _, hmem⟩
  rcases mem_tieMarkers hmem with ⟨info0, hmem2, _⟩
  rcases lookupDict_isSome_of_mem hmem2 with ⟨info, h6⟩
  rcases stopOf_some (c := chosen) h4 with ⟨stop, h7⟩
  exact ⟨_, selectResult_some_intro mode n st s0 chosen info stop h1 h2 h3 h4 h5 h6 h7⟩

/-! ### Scan-step lemmas -/

theorem stepStart_fields (mode : Mode) (st : ScanState) (l : List Char) :
    (stepStart mode st l).heights_by_marker = st.heights_by_marker ∧
    (stepStart mode st l).end_times_by_marker = st.end_times_by_marker ∧
    (stepStart mode st l).current_marker = st.current_marker := by
  unfold stepStart
  by_cases h : pyTruthy st.start_time = true
  · rw [if_pos h]
    exact ⟨rfl, rfl, rfl⟩
  · rw [if_neg h]
    cases extract_start_timestamp mode l with
    | none => exact ⟨rfl, rfl, rfl⟩
    | some v =>
      dsimp only
      by_cases hv : (v != 0) = true
      · rw [if_pos hv]
        exact ⟨rfl, rfl, rfl⟩
      · rw [if_neg hv]
        exact ⟨rfl, rfl, rfl⟩

theorem stepMarker_fields (st : ScanState) (l : List Char) :
    (stepMarker st l).start_time = st.start_time ∧
    (stepMarker st l).heights_by_marker = st.heights_by_marker ∧
    (stepMarker st l).end_times_by_marker = st.end_times_by_marker := by
  unfold stepMarker
  cases extract_marker l with
  | none => exact ⟨rfl, rfl, rfl⟩
  | some m =>
    dsimp only
    by_cases hm : m.isEmpty = true
    · rw [if_pos hm]
      exact ⟨rfl, rfl, rfl⟩
    · rw [if_neg hm]
      exact ⟨rfl, rfl, rfl⟩

theorem stepHeight_fields (st : ScanState) (l : List Char) :
    (stepHeight st l).start_time = st.start_time ∧
    (stepHeight st l).end_times_by_marker = st.end_times_by_marker ∧
    (stepHeight st l).current_marker = st.current_marker := by
  obtain ⟨s1, e1, hm1, c1⟩ := st
  unfold stepHeight
  by_cases h : isSubstrOf ("Sending update".data) l = true
  · rw [if_pos h]
    cases c1 with
    | none => exact ⟨rfl, rfl, rfl⟩
    | some cm =>
      dsimp only
      by_cases hm : cm.isEmpty = true
      · rw [if_pos hm]
        exact ⟨rfl, rfl, rfl⟩
      · rw [if_neg hm]
        cases extract_height_and_waveform l with
        | none => exact ⟨rfl, rfl, rfl⟩
        | some hw => exact ⟨rfl, rfl, rfl⟩
  · rw [if_neg h]
    exact ⟨rfl, rfl, rfl⟩

theorem stepEnd_fields (st : ScanState) (l : List Char) :
    (stepEnd st l).start_time = st.start_time ∧
    (stepEnd st l).heights_by_marker = st.heights_by_marker ∧
    (stepEnd st l).current_marker = st.current_marker := by
  unfold stepEnd
  by_cases h : (isSubstrOf ("update end marker=".data) l && isSubstrOf ("end time=".data) l) = true
  · rw [if_pos h]
    cases searchEndMarkerNum l with
    | none => exact ⟨rfl, rfl, rfl⟩
    | some em =>
      dsimp only
      cases extract_end_timestamp l with
      | none => exact ⟨rfl, rfl, rfl⟩
      | some t =>
        dsimp only
        by_cases ht : (t != 0) = true
        · rw [if_pos ht]
          exact ⟨rfl, rfl, rfl⟩
        · rw [if_neg ht]
          exact ⟨rfl, rfl, rfl⟩
  · rw [if_neg h]
    exact ⟨rfl, rfl, rfl⟩

/-! ### Blank lines match nothing -/

theorem nil_of_isEmpty {l : List α} (h : l.isEmpty = true) : l = [] := by
  cases l with
  | nil => rfl
  | cons a as => simp at h

theorem pyStrip_nil_space {l : List Char} (h : pyStrip l = []) :
    ∀ c ∈ l, isPySpace c = true := by
  intro c hc
  unfold pyStrip at h
  have h1 : ((l.dropWhile isPySpace).reverse.dropWhile isPySpace) = [] :=
    List.reverse_eq_nil_iff.mp h
  have h2 : ∀ x ∈ (l.dropWhile isPySpace).reverse, isPySpace x = true :=
    List.dropWhile_eq_nil_iff.mp h1
  have h3 : ∀ x ∈ l.dropWhile isPySpace, isPySpace x = true := by
    intro x hx
    exact h2 x (List.mem_reverse.mpr hx)
  have h4 : c ∈ l.takeWhile isPySpace ++ l.dropWhile isPySpace := by
    rw [List.takeWhile_append_dropWhile]
    exact hc
  rcases List.mem_append.mp h4 with h5 | h5
  · exact List.mem_takeWhile_imp h5
  · exact h3 c h5

theorem litThen_none_of_space (lit : List Char) (k : List Char → Option α)
    (hl : (match lit with | [] => false | a :: _ => !isPySpace a) = true) :
    ∀ c s, isPySpace c = true → litThen lit k (c :: s) = none := by
  intro c s hc
  cases lit with
  | nil => simp at hl
  | cons a ps =>
    have hl2 : (!isPySpace a) = true := hl
    have ha : isPySpace a = false := by
      revert hl2
      cases isPySpace a
      · intro _
        rfl
      · intro hx
        exact absurd hx (by decide)
    have hne : a ≠ c := by
      intro he
      rw [he, hc] at ha
      exact absurd ha (by decide)
    have hm : matchLit (a :: ps) (c :: s) = none := by
      simp only [matchLit, if_neg hne]
    unfold litThen
    rw [hm]

theorem scanSuffixes_none_all_space {t : List Char → Option α} :
    ∀ (l : List Char), (∀ c ∈ l, isPySpace c = true) →
    (∀ c s, isPySpace c = true → t (c :: s) = none) → scanSuffixes t l = none := by
  intro l
  induction l with
  | nil => intro _ _; rfl
  | cons c rest ih =>
    intro hl ht
    rw [scanSuffixes, ht c rest (hl c (List.mem_cons_self _ _))]
    exact ih (fun d hd => hl d (List.mem_cons_of_mem _ hd)) ht

theorem lcase_space {l : List Char} (h : ∀ c ∈ l, isPySpace c = true) :
    ∀ c ∈ lcase l, isPySpace c = true := by
  intro c hc
  rcases List.mem_map.mp hc with ⟨d, hd, he⟩
  have hds : isPySpace d = true := h d hd
  have hid : Char.toLower d = d := by
    have h6 : d = ' ' ∨ d = '\t' ∨ d = '\n' ∨ d = '\r' ∨ d = '\x0b' ∨ d = '\x0c' := by
      simpa [isPySpace, or_assoc] using hds
    rcases h6 with h6 | h6 | h6 | h6 | h6 | h6 <;> rw [h6] <;> decide
  rw [← he, hid]
  exact hds

theorem suspendP7_none_of_space :
    ∀ c s, isPySpace c = true → suspendP7 (c :: s) = none := by
  intro c s hc
  unfold suspendP7
  rw [litThen_none_of_space ("power".data) _ (by decide) c s hc]
  exact litThen_none_of_space ("pb".data) _ (by decide) c s hc

theorem extract_start_space {l : List Char} (h : ∀ c ∈ l, isPySpace c = true) :
    ∀ mode, extract_start_timestamp mode l = none := by
  intro mode
  cases mode with
  | default =>
    unfold extract_start_timestamp extract_start_default
    dsimp only
    rw [scanSuffixes_none_all_space l h
      (litThen_none_of_space ("button 1 up ".data) fracCaptureAt (by decide))]
    rfl
  | swipe =>
    unfold extract_start_timestamp extract_start_swipe
    dsimp only
    rw [scanSuffixes_none_all_space l h
      (litThen_none_of_space ("Sending button 1 down ".data) fracCaptureAt (by decide))]
    rfl
  | suspend =>
    unfold extract_start_timestamp extract_start_suspend
    dsimp only
    have hsp := lcase_space h
    rw [scanSuffixes_none_all_space (t := suspendP1) (lcase l) hsp
      (fun c s hc =>
        litThen_none_of_space ("def:pbpress:time=".data) _ (by decide) c s hc)]
    dsimp only
    rw [scanSuffixes_none_all_space (t := suspendP2) (lcase l) hsp
      (fun c s hc =>
        litThen_none_of_space ("power button pressed".data) _ (by decide) c s hc)]
    dsimp only
    rw [scanSuffixes_none_all_space (t := suspendP3) (lcase l) hsp
      (fun c s hc =>
        litThen_none_of_space ("pbpress".data) _ (by decide) c s hc)]
    dsimp only
    rw [scanSuffixes_none_all_space (t := suspendP4) (lcase l) hsp
      (fun c s hc =>
        litThen_none_of_space ("button".data) _ (by decide) c s hc)]
    dsimp only
    rw [scanSuffixes_none_all_space (t := suspendP5) (lcase l) hsp
      (fun c s hc =>
        litThen_none_of_space ("power".data) _ (by decide) c s hc)]
    dsimp only
    rw [scanSuffixes_none_all_space (t := suspendP6) (lcase l) hsp
      (fun c s hc =>
        litThen_none_of_space ("power".data) _ (by decide) c s hc)]
    dsimp only
    rw [scanSuffixes_none_all_space (t := suspendP7) (lcase l) hsp suspendP7_none_of_space]
    rfl

/-! ### Sticky start time -/

theorem pyTruthy_some {v : Nat} (h : v ≠ 0) : pyTruthy (some v) = true := by
  unfold pyTruthy
  simp [h]

theorem scanLine_start_of_truthy (mode : Mode) (st : ScanState) (l : List Char)
    (h : pyTruthy st.start_time = true) :
    (scanLine mode st l).start_time = st.start_time := by
  unfold scanLine
  by_cases hb : (pyStrip l).isEmpty = true
  · rw [if_pos hb]
  · rw [if_neg hb]
    rw [(stepEnd_fields _ _).1, (stepHeight_fields _ _).1, (stepMarker_fields _ _).1]
    unfold stepStart
    rw [if_pos h]

theorem foldl_scan_start_of_truthy (mode : Mode) (ls : List (List Char)) :
    ∀ st : ScanState, pyTruthy st.start_time = true →
    (ls.foldl (scanLine mode) st).start_time = st.start_time := by
  induction ls with
  | nil => intro st _; rfl
  | cons l ls ih =>
    intro st h
    rw [List.foldl_cons]
    rw [ih (scanLine mode st l) (by rw [scanLine_start_of_truthy mode st l h]; exact h)]
    exact scanLine_start_of_truthy mode st l h

theorem scanLine_start_none (mode : Mode) (st : ScanState) (l : List Char)
    (h : st.start_time = none) :
    (scanLine mode st l).start_time =
      match extract_start_timestamp mode l with
      | some v => if v ≠ 0 then some v else none
      | none => none := by
  by_cases hb : (pyStrip l).isEmpty = true
  · have hsp : ∀ c ∈ l, isPySpace c = true := pyStrip_nil_space (nil_of_isEmpty hb)
    rw [extract_start_space hsp mode]
    unfold scanLine
    rw [if_pos hb, h]
  · unfold scanLine
    rw [if_neg hb]
    rw [(stepEnd_fields _ _).1, (stepHeight_fields _ _).1, (stepMarker_fields _ _).1]
    unfold stepStart
    rw [if_neg (by rw [h]; intro hx; exact absurd hx (by decide))]
    cases he : extract_start_timestamp mode l with
    | none => exact h
    | some v =>
      dsimp only
      by_cases hv : v = 0
      · have hL : ¬((v != 0) = true) := by simp [hv]
        have hR : ¬(v ≠ 0) := by simp [hv]
        rw [if_neg hL, if_neg hR]
        exact h
      · have hL : (v != 0) = true := by simp [hv]
        rw [if_pos hL, if_pos hv]

theorem scanLines_start_aux (mode : Mode) (ls : List (List Char)) :
    ∀ st : ScanState, st.start_time = none →
    (ls.foldl (scanLine mode) st).start_time = firstNonzeroResult mode ls := by
  induction ls with
  | nil => intro st h; exact h
  | cons l ls ih =>
    intro st h
    rw [List.foldl_cons, firstNonzeroResult]
    cases he : extract_start_timestamp mode l with
    | none =>
      have hs : (scanLine mode st l).start_time = none := by
        rw [scanLine_start_none mode st l h, he]
      exact ih _ hs
    | some v =>
      dsimp only
      by_cases hv : v = 0
      · have hs : (scanLine mode st l).start_time = none := by
          rw [scanLine_start_none mode st l h, he]
          dsimp only
          rw [if_neg (by simp [hv])]
        rw [if_neg (by simp [hv])]
        exact ih _ hs
      · have hs : (scanLine mode st l).start_time = some v := by
          rw [scanLine_start_none mode st l h, he]
          dsimp only
          rw [if_pos hv]
        rw [foldl_scan_start_of_truthy mode ls _ (by rw [hs]; exact pyTruthy_some hv), hs,
          if_pos hv]

/-- The start time kept by the scan is the first nonzero extractor result. -/
theorem scanLines_start (mode : Mode) (ls : List (List Char)) :
    (scanLines mode ls).start_time = firstNonzeroResult mode ls :=
  scanLines_start_aux mode ls initState rfl

theorem firstNonzeroResult_ne_zero (mode : Mode) : ∀ ls, firstNonzeroResult mode ls ≠ some 0 := by
  intro ls
  induction ls with
  | nil => simp [firstNonzeroResult]
  | cons l ls ih =>
    rw [firstNonzeroResult]
    cases he : extract_start_timestamp mode l with
    | none => exact ih
    | some v =>
      dsimp only
      by_cases hv : v = 0
      · rw [if_neg (by simp [hv])]
        exact ih
      · rw [if_pos hv]
        intro hx
        injection hx with hx2
        exact hv hx2

/-! ### Marker ids are nonempty digit strings -/

theorem scanSuffixes_pred {t : List Char → Option α} {P : α → Prop}
    (hP : ∀ s x, t s = some x → P x) :
    ∀ l x, scanSuffixes t l = some x → P x := by
  intro l
  induction l with
  | nil => intro x h; simp [scanSuffixes] at h
  | cons c rest ih =>
    intro x h
    rw [scanSuffixes] at h
    cases ht : t (c :: rest) with
    | some r =>
      rw [ht] at h
      dsimp only at h
      injection h with h2
      exact h2 ▸ hP _ r ht
    | none =>
      rw [ht] at h
      dsimp only at h
      exact ih x h

theorem litThen_some {lit : List Char} {k : List Char → Option α} {s : List Char} {x : α}
    (h : litThen lit k s = some x) : ∃ r, matchLit lit s = some r ∧ k r = some x := by
  unfold litThen at h
  cases hm : matchLit lit s with
  | none =>
    rw [hm] at h
    exact absurd h (by simp)
  | some r =>
    rw [hm] at h
    exact ⟨r, rfl, h⟩

theorem takeWhile_digits_spec {r x : List Char}
    (hcond : ¬((r.takeWhile Char.isDigit).isEmpty = true))
    (hx : r.takeWhile Char.isDigit = x) : x ≠ [] ∧ x.all Char.isDigit = true := by
  subst hx
  constructor
  · intro he
    exact hcond (by rw [he]; rfl)
  · exact List.all_eq_true.mpr (fun c hc => List.mem_takeWhile_imp hc)

theorem digitsCapAt_spec {s ds : List Char} (h : digitsCapAt s = some ds) :
    ds ≠ [] ∧ ds.all Char.isDigit = true := by
  unfold digitsCapAt at h
  dsimp only at h
  split at h
  · exact absurd h (by simp)
  · rename_i hcond
    exact takeWhile_digits_spec hcond (Option.some.inj h)

theorem markerCapAt1_spec {s m : List Char} (h : markerCapAt1 s = some m) :
    m ≠ [] ∧ m.all Char.isDigit = true := by
  unfold markerCapAt1 at h
  rcases litThen_some h with ⟨r, _, hk⟩
  dsimp only at hk
  split at hk
  · exact absurd hk (by simp)
  · rename_i hcond
    split at hk
    · exact takeWhile_digits_spec hcond (Option.some.inj hk)
    · exact absurd hk (by simp)

theorem markerCapAt2_spec {s m : List Char} (h : markerCapAt2 s = some m) :
    m ≠ [] ∧ m.all Char.isDigit = true := by
  unfold markerCapAt2 at h
  rcases litThen_some h with ⟨r, _, hk⟩
  dsimp only at hk
  split at hk
  · exact absurd hk (by simp)
  · rename_i hcond
    split at hk
    · exact takeWhile_digits_spec hcond (Option.some.inj hk)
    · exact absurd hk (by simp)

theorem extract_marker_digits {l m : List Char} (h : extract_marker l = some m) :
    m ≠ [] ∧ m.all Char.isDigit = true := by
  unfold extract_marker at h
  cases h1 : scanSuffixes markerCapAt1 l with
  | some m1 =>
    rw [h1] at h
    dsimp only at h
    injection h with h2
    subst h2
    exact scanSuffixes_pred (fun s x hx => markerCapAt1_spec hx) l m1 h1
  | none =>
    rw [h1] at h
    dsimp only at h
    exact scanSuffixes_pred (fun s x hx => markerCapAt2_spec hx) l m h

/-! ### Scan-state invariant -/

theorem stepStart_good (mode : Mode) (st : ScanState) (l : List Char)
    (hg : goodState st) : goodState (stepStart mode st l) := by
  rcases stepStart_fields mode st l with ⟨hh, _, hc⟩
  unfold goodState at hg ⊢
  rw [hh, hc]
  exact hg

theorem stepEnd_good (st : ScanState) (l : List Char)
    (hg : goodState st) : goodState (stepEnd st l) := by
  rcases stepEnd_fields st l with ⟨_, hh, hc⟩
  unfold goodState at hg ⊢
  rw [hh, hc]
  exact hg

theorem stepMarker_good (st : ScanState) (l : List Char)
    (hg : goodState st) : goodState (stepMarker st l) := by
  unfold stepMarker
  cases he : extract_marker l with
  | none => exact hg
  | some m =>
    dsimp only
    by_cases hm : m.isEmpty = true
    · rw [if_pos hm]
      exact hg
    · rw [if_neg hm]
      rcases hg with ⟨hn, hk, _⟩
      refine ⟨hn, hk, ?_⟩
      intro m2 hm2
      have h3 : some m = some m2 := hm2
      have h4 : m2 = m := (Option.some.inj h3).symm
      subst h4
      exact extract_marker_digits he

theorem stepHeight_good (st : ScanState) (l : List Char)
    (hg : goodState st) : goodState (stepHeight st l) := by
  unfold stepHeight
  by_cases hs : isSubstrOf ("Sending update".data) l = true
  · rw [if_pos hs]
    cases hc : st.current_marker with
    | none => exact hg
    | some cm =>
      dsimp only
      by_cases hm : cm.isEmpty = true
      · rw [if_pos hm]
        exact hg
      · rw [if_neg hm]
        cases hw : extract_height_and_waveform l with
        | none => exact hg
        | some hwv =>
          dsimp only
          rcases hg with ⟨hn, hk, hcm⟩
          refine ⟨keysNodup_dictInsert hn, ?_, ?_⟩
          · intro p hp
            have hp1 : p.1 ∈ (dictInsert cm
                ({ height := hwv.height,
                   waveform := if (hwv.waveform.isEmpty || hwv.waveform = "auto".data)
                               then "unknown".data else hwv.waveform,
                   line := pyStrip l } : HeightInfo) st.heights_by_marker).map Prod.fst :=
              List.mem_map.mpr ⟨p, hp, rfl⟩
            rcases keys_dictInsert_sub hp1 with h1 | h1
            · rw [h1]
              exact hcm cm hc
            · rcases List.mem_map.mp h1 with ⟨q, hq, hq1⟩
              rw [← hq1]
              exact hk q hq
          · intro m2 hm2
            have h3 : some cm = some m2 := hm2
            have h4 : m2 = cm := (Option.some.inj h3).symm
            rw [h4]
            exact hcm cm hc
  · rw [if_neg hs]
    exact hg

theorem scanLine_good (mode : Mode) (st : ScanState) (l : List Char)
    (hg : goodState st) : goodState (scanLine mode st l) := by
  unfold scanLine
  by_cases hb : (pyStrip l).isEmpty = true
  · rw [if_pos hb]
    exact hg
  · rw [if_neg hb]
    exact stepEnd_good _ _ (stepHeight_good _ _ (stepMarker_good _ _ (stepStart_good mode _ _ hg)))

theorem goodState_init : goodState initState := by
  refine ⟨List.nodup_nil, ?_, ?_⟩
  · intro p hp
    simp [initState] at hp
  · intro m hm
    simp [initState] at hm

theorem scanLines_good (mode : Mode) (ls : List (List Char)) : goodState (scanLines mode ls) := by
  unfold scanLines
  have haux : ∀ st, goodState st → goodState (ls.foldl (scanLine mode) st) := by
    induction ls with
    | nil => intro st h; exact h
    | cons l ls ih =>
      intro st h
      rw [List.foldl_cons]
      exact ih _ (scanLine_good mode st l h)
  exact haux initState goodState_init

/-! ### End-time step behaviour -/

theorem startsWith_head {p c : Char} {ps cs : List Char}
    (h : startsWith (p :: ps) (c :: cs) = true) : p = c := by
  rw [startsWith] at h
  exact of_decide_eq_true (Bool.and_elim_left h)

theorem isSubstrOf_not_all_space {a : Char} {ps l : List Char} (ha : isPySpace a = false)
    (h : isSubstrOf (a :: ps) l = true) : ¬(∀ c ∈ l, isPySpace c = true) := by
  induction l with
  | nil => simp [isSubstrOf] at h
  | cons c cs ih =>
    rw [isSubstrOf] at h
    rcases Bool.or_eq_true_iff.mp h with h1 | h1
    · intro hall
      have hac : a = c := startsWith_head h1
      have := hall c (List.mem_cons_self _ _)
      rw [← hac, ha] at this
      exact absurd this (by decide)
    · intro hall
      exact ih h1 (fun d hd => hall d (List.mem_cons_of_mem _ hd))

theorem stepEnd_ends (st : ScanState) (l : List Char) (m : List Char) (t : Nat)
    (h1 : (isSubstrOf ("update end marker=".data) l && isSubstrOf ("end time=".data) l) = true)
    (h2 : searchEndMarkerNum l = some m) (h3 : extract_end_timestamp l = some t) :
    (stepEnd st l).end_times_by_marker =
      if t = 0 then st.end_times_by_marker
      else dictInsert m ({ time := t, line := pyStrip l }) st.end_times_by_marker := by
  unfold stepEnd
  rw [if_pos h1, h2]
  dsimp only
  rw [h3]
  dsimp only
  by_cases ht : t = 0
  · rw [if_neg (by simp [ht]), if_pos ht]
  · rw [if_pos (by simp [ht]), if_neg ht]

theorem scanLine_ends (mode : Mode) (st : ScanState) (l : List Char) (m : List Char) (t : Nat)
    (h1 : isSubstrOf ("update end marker=".data) l = true)
    (h1b : isSubstrOf ("end time=".data) l = true)
    (h2 : searchEndMarkerNum l = some m) (h3 : extract_end_timestamp l = some t) :
    (scanLine mode st l).end_times_by_marker =
      if t = 0 then st.end_times_by_marker
      else dictInsert m ({ time := t, line := pyStrip l }) st.end_times_by_marker := by
  unfold scanLine
  have hb : ¬((pyStrip l).isEmpty = true) := by
    intro hb
    exact (isSubstrOf_not_all_space (by decide) h1) (pyStrip_nil_space (nil_of_isEmpty hb))
  rw [if_neg hb]
  rw [stepEnd_ends _ _ m t (by rw [h1, h1b]; rfl) h2 h3]
  rw [(stepHeight_fields _ _).2.1, (stepMarker_fields _ _).2.2, (stepStart_fields _ _ _).2.1]

/-! ### Segmentation lemmas -/

theorem matchLit_length : ∀ {lit s r : List Char},
    matchLit lit s = some r → s.length = lit.length + r.length := by
  intro lit
  induction lit with
  | nil =>
    intro s r h
    rw [matchLit] at h
    injection h with h2
    rw [h2]
    simp
  | cons a ps ih =>
    intro s r h
    cases s with
    | nil => simp [matchLit] at h
    | cons c cs =>
      rw [matchLit] at h
      by_cases hac : a = c
      · rw [if_pos hac] at h
        have h2 := ih h
        simp only [List.length_cons]
        omega
      · rw [if_neg hac] at h
        exact absurd h (by simp)

theorem findIter_shrink : ∀ {s : List Char} {p cap r : List Char},
    findIter s = some (p, cap, r) → r.length < s.length := by
  intro s
  induction s with
  | nil =>
    intro p cap r h
    simp [findIter] at h
  | cons c cs ih =>
    intro p cap r h
    rw [findIter] at h
    cases hm : matchLit ("ITERATION_".data) (c :: cs) with
    | some r1 =>
      rw [hm] at h
      dsimp only at h
      by_cases hd : (r1.takeWhile Char.isDigit).isEmpty = true
      · rw [if_pos hd] at h
        cases hf : findIter cs with
        | some pcr =>
          obtain ⟨p2, cap2, r2⟩ := pcr
          rw [hf] at h
          dsimp only at h
          injection h with h2
          have hr : r = r2 := congrArg (fun x => x.2.2) h2.symm
          have h3 := ih hf
          rw [hr]
          simp only [List.length_cons]
          omega
        | none =>
          rw [hf] at h
          exact absurd h (by simp)
      · rw [if_neg hd] at h
        injection h with h2
        have hr : r = r1.drop (r1.takeWhile Char.isDigit).length :=
          congrArg (fun x => x.2.2) h2.symm
        have hlen := matchLit_length hm
        rw [hr]
        have hdrop : (r1.drop (r1.takeWhile Char.isDigit).length).length ≤ r1.length := by
          rw [List.length_drop]
          omega
        have h10 : ("ITERATION_".data).length = 10 := by decide
        omega
    | none =>
      rw [hm] at h
      dsimp only at h
      cases hf : findIter cs with
      | some pcr =>
        obtain ⟨p2, cap2, r2⟩ := pcr
        rw [hf] at h
        dsimp only at h
        injection h with h2
        have hr : r = r2 := congrArg (fun x => x.2.2) h2.symm
        have h3 := ih hf
        rw [hr]
        simp only [List.length_cons]
        omega
      | none =>
        rw [hf] at h
        exact absurd h (by simp)

theorem splitLoop_congr : ∀ (f1 g : Nat) {s : List Char},
    s.length < f1 → s.length < g → splitLoop f1 s = splitLoop g s := by
  intro f1
  induction f1 with
  | zero =>
    intro g s h1 _
    exact absurd h1 (by omega)
  | succ f ih =>
    intro g s h1 h2
    cases g with
    | zero => exact absurd h2 (by omega)
    | succ w =>
      rw [splitLoop, splitLoop]
      cases hf : findIter s with
      | none => rfl
      | some pcr =>
        obtain ⟨p, cap, r⟩ := pcr
        dsimp only
        have hr := findIter_shrink hf
        rw [ih w (s := r) (by omega) (by omega)]

theorem splitIterations_none {s : List Char} (h : findIter s = none) :
    splitIterations s = [s] := by
  unfold splitIterations
  rw [splitLoop, h]

theorem splitIterations_some {s p cap r : List Char} (h : findIter s = some (p, cap, r)) :
    splitIterations s = p :: cap :: splitIterations r := by
  unfold splitIterations
  rw [splitLoop, h]
  dsimp only
  have hr := findIter_shrink h
  rw [splitLoop_congr s.length (r.length + 1) (s := r) hr (by omega)]

/-! ### Remaining helper lemmas -/

theorem keysNodup_filter {hs : List (List Char × HeightInfo)}
    (h : keysNodup hs) (p : List Char × HeightInfo → Bool) : keysNodup (hs.filter p) := by
  unfold keysNodup at h ⊢
  exact h.sublist ((List.filter_sublist hs).map Prod.fst)

theorem mem_validHeightsOf {hs : List (List Char × HeightInfo)} {p : List Char × HeightInfo}
    (h : p ∈ validHeightsOf hs) : p ∈ hs := by
  unfold validHeightsOf at h
  by_cases hv : (nonUnknown hs).isEmpty = true
  · rw [if_pos hv] at h
    exact h
  · rw [if_neg hv] at h
    exact (List.mem_filter.mp h).1

theorem chosen_mem_tie {hs : List (List Char × HeightInfo)} {chosen : List Char}
    (h : chosenOf hs = some chosen) (hne : hs ≠ []) : chosen ∈ tieMarkers hs := by
  rcases chosenOf_spec hne with ⟨m, hm, _, hmem⟩
  rw [h] at hm
  rw [Option.some.inj hm]
  exact hmem

theorem scanStart_ne_zero (mode : Mode) (lines : List (List Char)) :
    ∀ s0, (scanLines mode lines).start_time = some s0 → s0 ≠ 0 := by
  intro s0 h h0
  subst h0
  rw [scanLines_start] at h
  exact firstNonzeroResult_ne_zero mode lines h

theorem firstNonzeroResult_isSome {mode : Mode} {lines : List (List Char)}
    (h : ∃ l ∈ lines, ∃ v, extract_start_timestamp mode l = some v ∧ v ≠ 0) :
    ∃ w, firstNonzeroResult mode lines = some w := by
  induction lines with
  | nil =>
    rcases h with ⟨l, hl, _⟩
    simp at hl
  | cons a as ih =>
    rw [firstNonzeroResult]
    cases he : extract_start_timestamp mode a with
    | some v =>
      dsimp only
      by_cases hv : v = 0
      · rw [if_neg (by simp [hv])]
        apply ih
        rcases h with ⟨l, hl, v0, hv0, hv0ne⟩
        rcases List.mem_cons.mp hl with h1 | h1
        · rw [h1, he] at hv0
          injection hv0 with h2
          rw [← h2, hv] at hv0ne
          exact absurd rfl hv0ne
        · exact ⟨l, h1, v0, hv0, hv0ne⟩
      · rw [if_pos hv]
        exact ⟨v, rfl⟩
    | none =>
      dsimp only
      apply ih
      rcases h with ⟨l, hl, v0, hv0, hv0ne⟩
      rcases List.mem_cons.mp hl with h1 | h1
      · rw [h1, he] at hv0
        exact absurd hv0 (by simp)
      · exact ⟨l, h1, v0, hv0, hv0ne⟩

theorem durOf_abs (t s : Nat) : durOf t s = |(t : Int) - (s : Int)| ∧ 0 ≤ durOf t s := by
  unfold durOf
  by_cases h : (t : Int) - (s : Int) < 0
  · rw [if_pos h, abs_of_neg h]
    exact ⟨rfl, by omega⟩
  · rw [if_neg h, abs_of_nonneg (by omega)]
    exact ⟨rfl, by omega⟩

/-! ### Claim theorems -/

set_option maxRecDepth 1000000

/-- C9: an input text in which the token `ITERATION_` followed by digits never
occurs (the split finds no match) is segmented into exactly one segment,
labeled "01", whose body is the entire input text. -/
theorem kindle_c9 (s : List Char) (h : findIter s = none) :
    segmentsOf s = [("01".data, s)] := by
  unfold segmentsOf
  rw [splitIterations_none h]
  rfl

/-- Witness for C9 at a concrete token-free input. -/
theorem kindle_c9_witness :
    findIter c9text = none ∧ segmentsOf c9text = [("01".data, c9text)] :=
  ⟨by decide, kindle_c9 c9text (by decide)⟩

/-- C10: all text preceding the first iteration token is discarded — two
inputs whose first token has the same capture and the same remaining text, but
different prefixes, produce identical analysis results in every mode, so
nothing before the first token can contribute to any result. -/
theorem kindle_c10 (s1 s2 : List Char) (mode : Mode) (p1 p2 cap rest : List Char)
    (h1 : findIter s1 = some (p1, cap, rest)) (h2 : findIter s2 = some (p2, cap, rest)) :
    process_log_content s1 mode = process_log_content s2 mode := by
  unfold process_log_content segmentsOf
  rw [splitIterations_some h1, splitIterations_some h2]
  simp only [List.drop_succ_cons, List.drop_zero, List.isEmpty_cons, Bool.false_eq_true,
    if_false]

/-- Witness for C10: a prefixed and an unprefixed input give equal output. -/
theorem kindle_c10_witness :
    findIter c10textA = some ("junk ".data, "7".data, ("\nbody").data) ∧
    findIter c10textB = some ([], "7".data, ("\nbody").data) ∧
    process_log_content c10textA Mode.default = process_log_content c10textB Mode.default :=
  ⟨by decide, by decide,
   kindle_c10 c10textA c10textB Mode.default ("junk ".data) [] ("7".data) (("\nbody").data)
     (by decide) (by decide)⟩

/-- C3 (amended): for every segment and mode, the start time kept by the scan
is the first NONZERO timestamp-extractor result over the segment's lines in
order — an extraction of 0 is falsy in the source and is skipped — and once a
truthy start time is present no later line replaces it. -/
theorem kindle_c3_amended :
    (∀ (mode : Mode) (lines : List (List Char)),
      (scanLines mode lines).start_time = firstNonzeroResult mode lines) ∧
    (∀ (mode : Mode) (st : ScanState) (l : List Char),
      pyTruthy st.start_time = true → (scanLine mode st l).start_time = st.start_time) :=
  ⟨scanLines_start, scanLine_start_of_truthy⟩

/-- Witness for C3's sticky clause at a concrete state and line. -/
theorem kindle_c3_witness :
    pyTruthy (ScanState.mk (some 5) [] [] none).start_time = true ∧
    (scanLine Mode.default (ScanState.mk (some 5) [] [] none)
      ("button 1 up 123456.789".data)).start_time = (ScanState.mk (some 5) [] [] none).start_time :=
  ⟨by decide,
   kindle_c3_amended.2 Mode.default (ScanState.mk (some 5) [] [] none)
     ("button 1 up 123456.789".data) (by decide)⟩

/-- C3 counterexample: on `zeroFirstLines` the first non-none extractor result
is 0, but the start time the analyzer keeps is 456789, so the start time used
is not the first non-none extractor result. -/
theorem kindle_c3_counterexample :
    firstExtractorResult Mode.default zeroFirstLines = some 0 ∧
    (scanLines Mode.default zeroFirstLines).start_time = some 456789 ∧
    (scanLines Mode.default zeroFirstLines).start_time ≠
      firstExtractorResult Mode.default zeroFirstLines := by
  refine ⟨by decide, by decide, by decide⟩

/-- C7 (amended): on a line containing both `update end marker=` and
`end time=` whose marker id and end time are captured, the integer formed from
the last six digits of the captured end time is stored for that marker id,
overwriting any previous entry — provided that integer is nonzero; a zero
value is falsy in the source, is not stored, and leaves any previous entry for
the marker unchanged. -/
theorem kindle_c7_amended (mode : Mode) (st : ScanState) (l : List Char)
    (m : List Char) (t : Nat)
    (h1 : isSubstrOf ("update end marker=".data) l = true)
    (h1b : isSubstrOf ("end time=".data) l = true)
    (h2 : searchEndMarkerNum l = some m) (h3 : extract_end_timestamp l = some t) :
    (scanLine mode st l).end_times_by_marker =
      if t = 0 then st.end_times_by_marker
      else dictInsert m ({ time := t, line := pyStrip l }) st.end_times_by_marker :=
  scanLine_ends mode st l m t h1 h1b h2 h3

/-- Witness for C7 at a concrete nonzero end-time line. -/
theorem kindle_c7_witness :
    isSubstrOf ("update end marker=".data) c7line = true ∧
    isSubstrOf ("end time=".data) c7line = true ∧
    searchEndMarkerNum c7line = some ("5".data) ∧
    extract_end_timestamp c7line = some 111222 ∧
    (scanLine Mode.default initState c7line).end_times_by_marker =
      (if (111222 : Nat) = 0 then initState.end_times_by_marker
       else dictInsert ("5".data) ({ time := 111222, line := pyStrip c7line })
         initState.end_times_by_marker) :=
  ⟨by decide, by decide, by decide, by decide,
   kindle_c7_amended Mode.default initState c7line ("5".data) 111222
     (by decide) (by decide) (by decide) (by decide)⟩

/-- C7 counterexample: the line `update end marker=5 end time=1000000`
satisfies every condition of the claim and its last-6-digit integer is 0, yet
after scanning `c7pair` the stored end time for marker 5 is still the earlier
111 — the zero value is neither stored nor does it overwrite. -/
theorem kindle_c7_counterexample :
    isSubstrOf ("update end marker=".data) c7zeroLine = true ∧
    isSubstrOf ("end time=".data) c7zeroLine = true ∧
    searchEndMarkerNum c7zeroLine = some ("5".data) ∧
    extract_end_timestamp c7zeroLine = some 0 ∧
    (scanLines Mode.default c7pair).end_times_by_marker.map (fun p => (p.1, p.2.time))
      = [("5".data, 111)] := by
  refine ⟨by decide, by decide, by decide, by decide, by decide⟩

/-- C2 (amended): for every segment and mode the analyzer returns `none`
exactly when, after the scan, the start time is none or the heights map is
empty or the end-times map is empty; in every other case it returns exactly
one fully populated result.  In particular a segment in which the extractor
returned a NONZERO start time for some line, and whose maps are nonempty,
yields a result (an extractor result of 0 is falsy in the source and does not
count as found). -/
theorem kindle_c2_amended (lines : List (List Char)) (n : List Char) (mode : Mode) :
    (process_iteration lines n mode = none ↔
      ((scanLines mode lines).start_time = none ∨
       (scanLines mode lines).heights_by_marker = [] ∨
       (scanLines mode lines).end_times_by_marker = [])) ∧
    ((∃ l ∈ lines, ∃ v, extract_start_timestamp mode l = some v ∧ v ≠ 0) →
      (scanLines mode lines).heights_by_marker ≠ [] →
      (scanLines mode lines).end_times_by_marker ≠ [] →
      ∃ r, process_iteration lines n mode = some r) := by
  constructor
  · constructor
    · intro h
      by_contra hcon
      push_neg at hcon
      obtain ⟨hs1, hs2, hs3⟩ := hcon
      rcases Option.ne_none_iff_exists'.mp hs1 with ⟨s0, hs0⟩
      have hz := scanStart_ne_zero mode lines s0 hs0
      rcases selectResult_isSome mode n (scanLines mode lines) s0 hs0 hz hs2 hs3 with ⟨r, hr⟩
      unfold process_iteration at h
      rw [h] at hr
      exact absurd hr (by simp)
    · intro h
      unfold process_iteration
      exact selectResult_none_of mode n _ h
  · intro hex h2 h3
    rcases firstNonzeroResult_isSome hex with ⟨w, hw⟩
    have hs0 : (scanLines mode lines).start_time = some w := by
      rw [scanLines_start]
      exact hw
    have hz := scanStart_ne_zero mode lines w hs0
    unfold process_iteration
    exact selectResult_isSome mode n _ w hs0 hz h2 h3

/-- Witness for C2 on a complete concrete segment. -/
theorem kindle_c2_witness :
    (∃ l ∈ goodSegLines, ∃ v, extract_start_timestamp Mode.default l = some v ∧ v ≠ 0) ∧
    (scanLines Mode.default goodSegLines).heights_by_marker ≠ [] ∧
    (scanLines Mode.default goodSegLines).end_times_by_marker ≠ [] ∧
    ∃ r, process_iteration goodSegLines ("01".data) Mode.default = some r :=
  ⟨⟨("button 1 up 123456.789").data, by decide, 456789, by decide, by decide⟩,
   by decide, by decide,
   (kindle_c2_amended goodSegLines ("01".data) Mode.default).2
     ⟨("button 1 up 123456.789").data, by decide, 456789, by decide, by decide⟩
     (by decide) (by decide)⟩

/-- C2 counterexample: in `zeroStartLines` the extractor returns the non-none
result 0 on the first line and both maps end up nonempty, yet the analyzer
returns none — a non-none extractor result does not guarantee a result. -/
theorem kindle_c2_counterexample :
    extract_start_timestamp Mode.default (("button 1 up 0.0").data) = some 0 ∧
    (("button 1 up 0.0").data) ∈ zeroStartLines ∧
    (scanLines Mode.default zeroStartLines).heights_by_marker ≠ [] ∧
    (scanLines Mode.default zeroStartLines).end_times_by_marker ≠ [] ∧
    process_iteration zeroStartLines ("01".data) Mode.default = none := by
  refine ⟨by decide, by decide, by decide, by decide, by decide⟩

/-- C5: for every analyzed segment (scan left a truthy start time and nonempty
maps), a result is emitted, and whenever the chosen marker has no entry in the
end-times map the result's stop time is the maximum time value over all
recorded end-time observations, regardless of marker. -/
theorem kindle_c5 (lines : List (List Char)) (n : List Char) (mode : Mode) (s0 : Nat)
    (h1 : (scanLines mode lines).start_time = some s0)
    (h3 : (scanLines mode lines).heights_by_marker ≠ [])
    (h4 : (scanLines mode lines).end_times_by_marker ≠ []) :
    ∃ r, process_iteration lines n mode = some r ∧
      (lookupDict r.marker (scanLines mode lines).end_times_by_marker = none →
        (∃ q ∈ (scanLines mode lines).end_times_by_marker, r.stop = q.2.time) ∧
        (∀ q ∈ (scanLines mode lines).end_times_by_marker, q.2.time ≤ r.stop)) := by
  have hz := scanStart_ne_zero mode lines s0 h1
  rcases selectResult_isSome mode n _ s0 h1 hz h3 h4 with ⟨r, hr⟩
  refine ⟨r, hr, ?_⟩
  intro hlk
  rcases selectResult_some_inv mode n _ r hr with
    ⟨s0b, chosen, info, stop, _, _, _, _, _, _, h7, hreq⟩
  have hm : r.marker = chosen := by rw [hreq]
  have hstop : r.stop = stop := by rw [hreq]
  rw [hm] at hlk
  unfold stopOf at h7
  rw [hlk] at h7
  rcases maxByTime_some h4 with ⟨p, hp, hpmem, hpmax⟩
  rw [hp] at h7
  rw [Option.map_some'] at h7
  have h8 := Option.some.inj h7
  constructor
  · exact ⟨p, hpmem, by rw [hstop, ← h8]⟩
  · intro q hq
    rw [hstop, ← h8]
    exact hpmax q hq

/-- Witness for C5: the chosen marker 5 has no end-time entry; the stop time
is the maximum recorded end time 999, which belongs to marker 7. -/
theorem kindle_c5_witness :
    (scanLines Mode.default c5lines).start_time = some 456789 ∧
    (scanLines Mode.default c5lines).heights_by_marker ≠ [] ∧
    (scanLines Mode.default c5lines).end_times_by_marker ≠ [] ∧
    ∃ r, process_iteration c5lines ("01".data) Mode.default = some r ∧
      (lookupDict r.marker (scanLines Mode.default c5lines).end_times_by_marker = none →
        (∃ q ∈ (scanLines Mode.default c5lines).end_times_by_marker, r.stop = q.2.time) ∧
        (∀ q ∈ (scanLines Mode.default c5lines).end_times_by_marker, q.2.time ≤ r.stop)) :=
  ⟨by decide, by decide, by decide,
   kindle_c5 c5lines ("01".data) Mode.default 456789 (by decide) (by decide) (by decide)⟩

/-- C8: for every emitted result the duration equals the absolute value of
stop minus start and is therefore non-negative; in particular the concrete
segment with start 789 and stop 456 yields duration 333. -/
theorem kindle_c8 :
    (∀ (lines : List (List Char)) (n : List Char) (mode : Mode) (r : AnalysisResult),
      process_iteration lines n mode = some r →
      r.duration = |(r.stop : Int) - (r.start : Int)| ∧ 0 ≤ r.duration) ∧
    process_iteration c8lines ("01".data) Mode.default = some c8res := by
  constructor
  · intro lines n mode r h
    unfold process_iteration at h
    rcases selectResult_some_inv mode n _ r h with
      ⟨s0, chosen, info, stop, _, _, _, _, _, _, _, hreq⟩
    have h1 : r.duration = durOf stop s0 := by rw [hreq]
    have h2 : r.stop = stop := by rw [hreq]
    have h3 : r.start = s0 := by rw [hreq]
    rw [h1, h2, h3]
    exact durOf_abs stop s0
  · decide

/-- Witness for C8 at the concrete stop-before-start segment. -/
theorem kindle_c8_witness :
    process_iteration c8lines ("01".data) Mode.default = some c8res ∧
    (c8res.duration = |(c8res.stop : Int) - (c8res.start : Int)| ∧ 0 ≤ c8res.duration) :=
  ⟨by decide, kindle_c8.1 c8lines ("01".data) Mode.default c8res (by decide)⟩

/-- C6: for every analyzed segment the chosen marker is the last element of
the stable ascending sort of the tied marker ids under the key
`int(m) if m.isdigit() else 0`; moreover every chosen marker id is a nonempty
digit string (all ids captured by the marker patterns are), so a non-numeric
id is never chosen; and the concrete tie between markers 3 and 12 is resolved
to 12 (numeric maximum, not lexicographic). -/
theorem kindle_c6 :
    (∀ (lines : List (List Char)) (n : List Char) (mode : Mode) (r : AnalysisResult),
      process_iteration lines n mode = some r →
      (sortByKey pyIntKey (tieMarkers (validHeightsOf
        (scanLines mode lines).heights_by_marker))).getLast? = some r.marker ∧
      r.marker ≠ [] ∧ r.marker.all Char.isDigit = true) ∧
    (process_iteration c6lines ("01".data) Mode.default).map (fun r => r.marker)
      = some ("12".data) := by
  constructor
  · intro lines n mode r h
    unfold process_iteration at h
    rcases selectResult_some_inv mode n _ r h with
      ⟨s0, chosen, info, stop, _, _, h3n, _, h5, _, _, hreq⟩
    have hm : r.marker = chosen := by rw [hreq]
    have hvne := validHeightsOf_ne_nil h3n
    rcases chosenOf_spec hvne with ⟨m, hm2, hlast, _⟩
    rw [h5] at hm2
    have hmc : m = chosen := (Option.some.inj hm2).symm
    constructor
    · rw [hm, ← hmc]
      exact hlast
    · rw [hm]
      have hmem := chosen_mem_tie h5 hvne
      rcases mem_tieMarkers hmem with ⟨info2, hmem2, _⟩
      have hin : (chosen, info2) ∈ (scanLines mode lines).heights_by_marker :=
        mem_validHeightsOf hmem2
      exact (scanLines_good mode lines).2.1 (chosen, info2) hin
  · decide

/-- Witness for C6 at the concrete 3-versus-12 tie segment. -/
theorem kindle_c6_witness :
    process_iteration c6lines ("01".data) Mode.default = some c6res ∧
    ((sortByKey pyIntKey (tieMarkers (validHeightsOf
        (scanLines Mode.default c6lines).heights_by_marker))).getLast? = some c6res.marker ∧
      c6res.marker ≠ [] ∧ c6res.marker.all Char.isDigit = true) :=
  ⟨by decide, kindle_c6.1 c6lines ("01".data) Mode.default c6res (by decide)⟩

/-- C4: for every analyzed segment, when at least one stored marker has a
waveform other than `unknown` (case-insensitively), the chosen marker is
looked up inside that non-`unknown` subset — so an `unknown`-waveform marker
is never chosen then, even with a strictly greater height — and the reported
maximum height is the maximum over that subset; when every stored waveform is
`unknown`, selection falls back to the full heights map. -/
theorem kindle_c4 (lines : List (List Char)) (n : List Char) (mode : Mode)
    (r : AnalysisResult) (h : process_iteration lines n mode = some r) :
    (nonUnknown (scanLines mode lines).heights_by_marker ≠ [] →
      (∃ info, lookupDict r.marker (nonUnknown (scanLines mode lines).heights_by_marker)
          = some info ∧
        lcase info.waveform ≠ "unknown".data ∧
        info.height = maxHeightOf (nonUnknown (scanLines mode lines).heights_by_marker)) ∧
      r.max_height = maxHeightOf (nonUnknown (scanLines mode lines).heights_by_marker)) ∧
    (nonUnknown (scanLines mode lines).heights_by_marker = [] →
      (∃ info, lookupDict r.marker (scanLines mode lines).heights_by_marker = some info ∧
        info.height = maxHeightOf (scanLines mode lines).heights_by_marker) ∧
      r.max_height = maxHeightOf (scanLines mode lines).heights_by_marker) := by
  unfold process_iteration at h
  rcases selectResult_some_inv mode n _ r h with
    ⟨s0, chosen, info, stop, hst, hz, h3n, h4n, h5, h6, h7, hreq⟩
  have hmr : r.marker = chosen := by rw [hreq]
  have hmh : r.max_height = info.height := by rw [hreq]
  constructor
  · intro hfl
    have hval : validHeightsOf (scanLines mode lines).heights_by_marker
        = nonUnknown (scanLines mode lines).heights_by_marker := by
      unfold validHeightsOf
      rw [if_neg (by simp [isEmpty_false_of_ne_nil hfl])]
    rw [hval] at h5 h6
    have hmem := chosen_mem_tie h5 hfl
    rcases mem_tieMarkers hmem with ⟨info2, hmem2, hmax⟩
    have hnodup : keysNodup (nonUnknown (scanLines mode lines).heights_by_marker) := by
      unfold nonUnknown
      exact keysNodup_filter (scanLines_good mode lines).1 _
    have hl2 := lookupDict_eq_of_mem_nodup hnodup hmem2
    rw [h6] at hl2
    have hinfo : info = info2 := Option.some.inj hl2
    have hwf : lcase info.waveform ≠ "unknown".data := by
      have hmem3 := lookupDict_mem h6
      unfold nonUnknown at hmem3
      exact of_decide_eq_true (List.mem_filter.mp hmem3).2
    constructor
    · rw [hmr]
      exact ⟨info, h6, hwf, by rw [hinfo]; exact hmax⟩
    · rw [hmh, hinfo]
      exact hmax
  · intro hfl
    have hval : validHeightsOf (scanLines mode lines).heights_by_marker
        = (scanLines mode lines).heights_by_marker := by
      unfold validHeightsOf
      rw [if_pos (by rw [hfl]; rfl)]
    rw [hval] at h5 h6
    have hmem := chosen_mem_tie h5 h3n
    rcases mem_tieMarkers hmem with ⟨info2, hmem2, hmax⟩
    have hl2 := lookupDict_eq_of_mem_nodup (scanLines_good mode lines).1 hmem2
    rw [h6] at hl2
    have hinfo : info = info2 := Option.some.inj hl2
    constructor
    · rw [hmr]
      exact ⟨info, h6, by rw [hinfo]; exact hmax⟩
    · rw [hmh, hinfo]
      exact hmax

/-- Witness for C4: marker 3 has the unknown waveform and the strictly
greater height 900, yet marker 5 (REAGL, height 800) is chosen. -/
theorem kindle_c4_witness :
    process_iteration c4lines ("01".data) Mode.default = some c4res ∧
    ((nonUnknown (scanLines Mode.default c4lines).heights_by_marker ≠ [] →
      (∃ info, lookupDict c4res.marker
          (nonUnknown (scanLines Mode.default c4lines).heights_by_marker) = some info ∧
        lcase info.waveform ≠ "unknown".data ∧
        info.height = maxHeightOf (nonUnknown (scanLines Mode.default c4lines).heights_by_marker)) ∧
      c4res.max_height = maxHeightOf (nonUnknown (scanLines Mode.default c4lines).heights_by_marker)) ∧
    (nonUnknown (scanLines Mode.default c4lines).heights_by_marker = [] →
      (∃ info, lookupDict c4res.marker (scanLines Mode.default c4lines).heights_by_marker
          = some info ∧
        info.height = maxHeightOf (scanLines Mode.default c4lines).heights_by_marker) ∧
      c4res.max_height = maxHeightOf (scanLines Mode.default c4lines).heights_by_marker)) :=
  ⟨by decide, kindle_c4 c4lines ("01".data) Mode.default c4res (by decide)⟩

/-- C1 (amended): the end-to-end scenario yields exactly one result with
startTime 456789 ("456"+"789"), chosenMarker "5", stopTime 111222 (the last
six digits of "111222"), durationMillis |111222 − 456789| = 345567,
chosenHeight 800 and chosenWaveform REAGL. -/
theorem kindle_c1_amended : process_log_content c1text Mode.default = [c1res] := by
  decide

/-- C1 counterexample: the single result's stop time is 111222 and its
duration is 345567, not the claimed 222 and 456567 (the last six digits of
"111222" are "111222", not "222"). -/
theorem kindle_c1_counterexample :
    (process_log_content c1text Mode.default).map (fun r => (r.stop, r.duration))
      = [(111222, 345567)] ∧
    ¬((process_log_content c1text Mode.default).map (fun r => (r.stop, r.duration))
      = [(222, 456567)]) := by
  refine ⟨by decide, by decide⟩
